import Mathlib

/-!
Verification of the BlackRoad RSS aggregator core (`rss_aggregator.py`).

The SQLite-backed aggregator is shallowly embedded: the two tables
(`feeds`, `feed_items`), the FTS5 index together with its two triggers, and
every operation of `RSSAggregator` that the specification's claims touch are
modelled as pure functions over an explicit `Store` state.  Machine-level
details are made explicit:

* `uuid.uuid4()` and `datetime.now()` are nondeterministic inputs, so the
  operations take the generated ids and the current timestamp as parameters;
* the external fetcher (`_simulate_fetch` is a fixture standing in for the
  pluggable `FeedFetcher`) is modelled by the value it returns, an
  `Except String (List RawItem)`: `.error` is a raised fetch exception;
* sqlite store failures are modelled by fault-injection parameters saying at
  which per-item transaction (if any) an exception is raised — each loop
  iteration of `RSSAggregator.refresh` runs in its own `with` connection and
  commits atomically, so a fault at iteration `k` leaves iterations `< k`
  committed;
* `hashlib.sha256` is implemented bit-faithfully over `Nat` (checked against
  the official FIPS 180-4 test vectors), and Python's ASCII `str.lower`,
  `str.upper`, `str.strip` and `str.encode` (UTF-8) are implemented directly.
-/

set_option maxRecDepth 1000000

/-! ## Python string primitives used by `_fingerprint` -/

/-- ASCII case folding of one character, as Python's `str.lower` acts on the
ASCII range. -/
def lowerChar (c : Char) : Char :=
  if 65 ≤ c.toNat ∧ c.toNat ≤ 90 then Char.ofNat (c.toNat + 32) else c

/-- ASCII upper-casing of one character, as Python's `str.upper` acts on the
ASCII range. -/
def upperChar (c : Char) : Char :=
  if 97 ≤ c.toNat ∧ c.toNat ≤ 122 then Char.ofNat (c.toNat - 32) else c

/-- Python `str.lower` (ASCII fragment). -/
def pyLower (s : String) : String := String.mk (s.data.map lowerChar)

/-- Python `str.upper` (ASCII fragment). -/
def pyUpper (s : String) : String := String.mk (s.data.map upperChar)

/-- Python `str.strip` whitespace test: space, tab, LF, VT, FF, CR. -/
def stripSpace (c : Char) : Bool := c.toNat == 32 || (9 ≤ c.toNat && c.toNat ≤ 13)

/-- Python `str.strip()`: drop leading and trailing whitespace. -/
def pyStrip (s : String) : String :=
  String.mk (((s.data.dropWhile stripSpace).reverse.dropWhile stripSpace).reverse)

/-- The normalization `_fingerprint` applies to each component:
`title.lower().strip()`. -/
def normText (s : String) : String := pyStrip (pyLower s)

/-- UTF-8 encoding of one character (`str.encode`), as a list of byte values. -/
def utf8Char (c : Char) : List Nat :=
  let n := c.toNat
  if n < 128 then [n]
  else if n < 2048 then [192 + n / 64, 128 + n % 64]
  else if n < 65536 then [224 + n / 4096, 128 + (n / 64) % 64, 128 + n % 64]
  else [240 + n / 262144, 128 + (n / 4096) % 64, 128 + (n / 64) % 64, 128 + n % 64]

/-- UTF-8 encoding of a string (`str.encode`), as a list of byte values. -/
def utf8 (s : String) : List Nat := (s.data.map utf8Char).flatten

/-! ## SHA-256 (`hashlib.sha256(...).hexdigest()`), FIPS 180-4 over `Nat` -/

/-- Modulus for 32-bit words. -/
def M32 : Nat := 4294967296

/-- Right rotation of a 32-bit word. -/
def rotr (n x : Nat) : Nat := (x >>> n) + ((x % (2 ^ n)) <<< (32 - n))

/-- The 64 SHA-256 round constants. -/
def sha256K : List Nat :=
  [1116352408, 1899447441, 3049323471, 3921009573, 961987163,
   1508970993, 2453635748, 2870763221, 3624381080, 310598401,
   607225278, 1426881987, 1925078388, 2162078206, 2614888103,
   3248222580, 3835390401, 4022224774, 264347078, 604807628,
   770255983, 1249150122, 1555081692, 1996064986, 2554220882,
   2821834349, 2952996808, 3210313671, 3336571891, 3584528711,
   113926993, 338241895, 666307205, 773529912, 1294757372,
   1396182291, 1695183700, 1986661051, 2177026350, 2456956037,
   2730485921, 2820302411, 3259730800, 3345764771, 3516065817,
   3600352804, 4094571909, 275423344, 430227734, 506948616,
   659060556, 883997877, 958139571, 1322822218, 1537002063,
   1747873779, 1955562222, 2024104815, 2227730452, 2361852424,
   2428436474, 2756734187, 3204031479, 3329325298]

/-- SHA-256 padding: append `0x80`, zero fill, and the 64-bit big-endian bit
length, reaching a multiple of 64 bytes. -/
def padMsg (m : List Nat) : List Nat :=
  let l := m.length
  let k := (119 - (l % 64)) % 64
  let bits := 8 * l
  m ++ [128] ++ List.replicate k 0 ++
    [(bits >>> 56) % 256, (bits >>> 48) % 256, (bits >>> 40) % 256, (bits >>> 32) % 256,
     (bits >>> 24) % 256, (bits >>> 16) % 256, (bits >>> 8) % 256, bits % 256]

/-- Group bytes into big-endian 32-bit words. -/
def chunkWords : List Nat → List Nat
  | b0 :: b1 :: b2 :: b3 :: rest => (((b0 * 256 + b1) * 256 + b2) * 256 + b3) :: chunkWords rest
  | _ => []

/-- Extend the 16 message-schedule words by `n` more words. -/
def extendW (w : List Nat) : Nat → List Nat
  | 0 => w
  | n + 1 =>
    let w' := extendW w n
    let i := w'.length
    if i < 16 then w' else
      let w15 := w'.getD (i - 15) 0
      let w2 := w'.getD (i - 2) 0
      let w16 := w'.getD (i - 16) 0
      let w7 := w'.getD (i - 7) 0
      let s0 := (rotr 7 w15) ^^^ (rotr 18 w15) ^^^ (w15 >>> 3)
      let s1 := (rotr 17 w2) ^^^ (rotr 19 w2) ^^^ (w2 >>> 10)
      w' ++ [(w16 + s0 + w7 + s1) % M32]

/-- One SHA-256 compression round on the eight working variables. -/
def compressRound (st : List Nat) (kw : Nat × Nat) : List Nat :=
  match st with
  | [a, b, c, d, e, f, g, h] =>
    let s1 := (rotr 6 e) ^^^ (rotr 11 e) ^^^ (rotr 25 e)
    let ch := (e &&& f) ^^^ ((e ^^^ 4294967295) &&& g)
    let t1 := (h + s1 + ch + kw.1 + kw.2) % M32
    let s0 := (rotr 2 a) ^^^ (rotr 13 a) ^^^ (rotr 22 a)
    let mj := (a &&& b) ^^^ (a &&& c) ^^^ (b &&& c)
    let t2 := (s0 + mj) % M32
    [(t1 + t2) % M32, a, b, c, (d + t1) % M32, e, f, g]
  | other => other

/-- Process one 64-byte chunk, updating the eight hash words. -/
def processChunk (h : List Nat) (chunk : List Nat) : List Nat :=
  let w := extendW (chunkWords chunk) 48
  let st := (sha256K.zip w).foldl compressRound h
  (h.zip st).map (fun p => (p.1 + p.2) % M32)

/-- Split a byte list into 64-byte chunks (fuelled, structurally recursive). -/
def chunksAux : Nat → List Nat → List (List Nat)
  | 0, _ => []
  | _, [] => []
  | n + 1, l => l.take 64 :: chunksAux n (l.drop 64)

/-- Split a byte list into 64-byte chunks. -/
def chunks64 (l : List Nat) : List (List Nat) := chunksAux l.length l

/-- SHA-256 digest of a byte list, as eight 32-bit words. -/
def sha256Words (m : List Nat) : List Nat :=
  (chunks64 (padMsg m)).foldl processChunk
    [1779033703, 3144134277, 1013904242, 2773480762, 1359893119, 2600822924, 528734635, 1541459225]

/-- Lower-case hexadecimal digit. -/
def hexDigit (n : Nat) : Char := if n < 10 then Char.ofNat (48 + n) else Char.ofNat (87 + n)

/-- Eight hex characters of one 32-bit word, most significant nibble first. -/
def wordHex (w : Nat) : List Char :=
  [hexDigit ((w >>> 28) % 16), hexDigit ((w >>> 24) % 16), hexDigit ((w >>> 20) % 16),
   hexDigit ((w >>> 16) % 16), hexDigit ((w >>> 12) % 16), hexDigit ((w >>> 8) % 16),
   hexDigit ((w >>> 4) % 16), hexDigit (w % 16)]

/-- Characters of `hashlib.sha256(m).hexdigest()`. -/
def sha256hex (m : List Nat) : List Char := ((sha256Words m).map wordHex).flatten

/-- `RSSAggregator._fingerprint`: sha256 of the lower-cased, stripped title
concatenated with the lower-cased, stripped url, truncated to the first 16 hex
characters. -/
def fingerprint (title url : String) : String :=
  String.mk ((sha256hex (utf8 (normText title ++ normText url))).take 16)

/-! ## Data model: the `feeds` and `feed_items` tables and the FTS5 index -/

/-- A row of the `feeds` table (the `Feed` dataclass). -/
structure Feed where
  id : String
  name : String
  url : String
  category : String
  fetch_interval_min : Nat
  last_fetched : Option String
  status : String
  error_message : Option String
  item_count : Nat
  created_at : String
deriving Repr, DecidableEq

/-- A row of the `feed_items` table (the `FeedItem` dataclass). -/
structure FeedItem where
  id : String
  feed_id : String
  title : String
  url : String
  summary : String
  author : String
  published_at : String
  fingerprint : String
  is_read : Bool
  is_bookmarked : Bool
  created_at : String
deriving Repr, DecidableEq

/-- A stored `feed_items` row together with its implicit sqlite `rowid`. -/
structure Row where
  rowid : Nat
  item : FeedItem
deriving Repr, DecidableEq

/-- An entry of the `feed_items_fts` full-text index (columns `title`,
`summary`, `author`, keyed by the content table's `rowid`). -/
structure FtsRow where
  rowid : Nat
  title : String
  summary : String
  author : String
deriving Repr, DecidableEq

/-- The whole sqlite database: both tables, the FTS index, and the next free
`rowid` of `feed_items`. -/
structure Store where
  feeds : List Feed
  items : List Row
  fts : List FtsRow
  nextRowid : Nat
deriving Repr, DecidableEq

/-- One normalized raw item as returned by the external fetcher
(`_simulate_fetch` in the reference code). -/
structure RawItem where
  title : String
  url : String
  summary : String
  author : String
  published_at : String
deriving Repr, DecidableEq

/-! ## Store primitives (single SQL statements with their triggers) -/

/-- `INSERT INTO feed_items ...` together with the `feed_items_ai` trigger,
which inserts the matching `feed_items_fts` entry in the same unit of work. -/
def sqlInsertItem (st : Store) (it : FeedItem) : Store :=
  { feeds := st.feeds,
    items := st.items ++ [⟨st.nextRowid, it⟩],
    fts := st.fts ++ [⟨st.nextRowid, it.title, it.summary, it.author⟩],
    nextRowid := st.nextRowid + 1 }

/-- `DELETE FROM feed_items WHERE p` together with the `feed_items_ad`
trigger, which removes each deleted row's `feed_items_fts` entry in the same
unit of work; returns the sqlite `rowcount`. -/
def sqlDeleteItems (st : Store) (p : FeedItem → Bool) : Nat × Store :=
  let gone := st.items.filter (fun r => p r.item)
  (gone.length,
   { feeds := st.feeds,
     items := st.items.filter (fun r => !(p r.item)),
     fts := st.fts.filter (fun e => !(gone.any (fun r => r.rowid == e.rowid))),
     nextRowid := st.nextRowid })

/-! ## Feed queries and status operations -/

/-- `RSSAggregator.get_feed`: `SELECT * FROM feeds WHERE id=?`. -/
def get_feed (st : Store) (feed_id : String) : Option Feed :=
  st.feeds.find? (fun f => f.id == feed_id)

/-- `RSSAggregator.get_feed_by_url`: `SELECT * FROM feeds WHERE url=?`. -/
def get_feed_by_url (st : Store) (url : String) : Option Feed :=
  st.feeds.find? (fun f => f.url == url)

/-- `RSSAggregator.add_feed`.  The generated `uuid4` id and `_now()` timestamp
are inputs.  `INSERT OR IGNORE` drops the row silently when a uniqueness
constraint (the url, or the primary key) is already taken; the method then
returns `get_feed_by_url(url) or feed`. -/
def add_feed (st : Store) (name url category : String) (fetch_interval_min : Nat)
    (feed_id now : String) : Feed × Store :=
  let feed : Feed :=
    { id := feed_id, name := name, url := url, category := category,
      fetch_interval_min := fetch_interval_min, last_fetched := none,
      status := "active", error_message := none, item_count := 0, created_at := now }
  let st' :=
    if st.feeds.any (fun f => f.url == url || f.id == feed_id) then st
    else { st with feeds := st.feeds ++ [feed] }
  (((get_feed_by_url st' url).getD feed), st')

/-- `RSSAggregator.pause_feed`: `UPDATE feeds SET status='paused' WHERE id=?`;
returns `rowcount > 0`. -/
def pause_feed (st : Store) (feed_id : String) : Bool × Store :=
  (st.feeds.any (fun f => f.id == feed_id),
   { st with feeds := st.feeds.map (fun f =>
       if f.id == feed_id then { f with status := "paused" } else f) })

/-- `RSSAggregator.resume_feed`: `UPDATE feeds SET status='active' WHERE id=?`;
returns `rowcount > 0`. -/
def resume_feed (st : Store) (feed_id : String) : Bool × Store :=
  (st.feeds.any (fun f => f.id == feed_id),
   { st with feeds := st.feeds.map (fun f =>
       if f.id == feed_id then { f with status := "active" } else f) })

/-! ## Item flag operations -/

/-- `RSSAggregator.mark_read`: `UPDATE feed_items SET is_read=1 WHERE id=?`;
returns `rowcount > 0`. -/
def mark_read (st : Store) (item_id : String) : Bool × Store :=
  (st.items.any (fun r => r.item.id == item_id),
   { st with items := st.items.map (fun r =>
       if r.item.id == item_id then ⟨r.rowid, { r.item with is_read := true }⟩ else r) })

/-- `RSSAggregator.mark_unread`: `UPDATE feed_items SET is_read=0 WHERE id=?`. -/
def mark_unread (st : Store) (item_id : String) : Bool × Store :=
  (st.items.any (fun r => r.item.id == item_id),
   { st with items := st.items.map (fun r =>
       if r.item.id == item_id then ⟨r.rowid, { r.item with is_read := false }⟩ else r) })

/-- `RSSAggregator.bookmark`: `UPDATE feed_items SET is_bookmarked=1 WHERE id=?`. -/
def bookmark (st : Store) (item_id : String) : Bool × Store :=
  (st.items.any (fun r => r.item.id == item_id),
   { st with items := st.items.map (fun r =>
       if r.item.id == item_id then ⟨r.rowid, { r.item with is_bookmarked := true }⟩ else r) })

/-- `RSSAggregator.unbookmark`: `UPDATE feed_items SET is_bookmarked=0 WHERE id=?`. -/
def unbookmark (st : Store) (item_id : String) : Bool × Store :=
  (st.items.any (fun r => r.item.id == item_id),
   { st with items := st.items.map (fun r =>
       if r.item.id == item_id then ⟨r.rowid, { r.item with is_bookmarked := false }⟩ else r) })

/-! ## Full-text search (`feed_items_fts` FTS5 index with unicode61 tokens) -/

/-- ASCII alphanumeric test, the token characters of the FTS5 `unicode61`
tokenizer restricted to ASCII. -/
def alnumChar (c : Char) : Bool :=
  (48 ≤ c.toNat && c.toNat ≤ 57) || (65 ≤ c.toNat && c.toNat ≤ 90) ||
    (97 ≤ c.toNat && c.toNat ≤ 122)

/-- Split a character list into maximal alphanumeric runs (`cur` is the
current run, reversed). -/
def splitTokens : List Char → List Char → List (List Char)
  | [], cur => if cur.isEmpty then [] else [cur.reverse]
  | c :: rest, cur =>
    if alnumChar c then splitTokens rest (c :: cur)
    else if cur.isEmpty then splitTokens rest []
    else cur.reverse :: splitTokens rest []

/-- Case-folded index tokens of a stored text, modelling the FTS5 `unicode61`
tokenizer on ASCII content. -/
def ftsTokens (s : String) : List (List Char) :=
  (splitTokens s.data []).map (fun t => t.map lowerChar)

/-- Does a single-term MATCH query hit the given indexed content?  Models
`feed_items_fts MATCH q` for a plain one-term query string. -/
def contentMatch (q : String) (title summary author : String) : Bool :=
  let tq := q.data.map lowerChar
  (ftsTokens title).any (fun t => t == tq) || (ftsTokens summary).any (fun t => t == tq) ||
    (ftsTokens author).any (fun t => t == tq)

/-- Byte-lexicographic comparison of two character lists; on ASCII data this
is sqlite's BINARY collation order used by `ORDER BY` and `MIN`. -/
def charsLt : List Char → List Char → Bool
  | _, [] => false
  | [], _ :: _ => true
  | a :: as, b :: bs => a.toNat < b.toNat || (a.toNat == b.toNat && charsLt as bs)

/-- `ORDER BY published_at DESC` comparison: `a` may precede `b`. -/
def pubGe (a b : Row) : Bool := !(charsLt a.item.published_at.data b.item.published_at.data)

/-- Insert into a list already sorted by `published_at` descending. -/
def insertPubDesc (x : Row) : List Row → List Row
  | [] => [x]
  | y :: ys => if pubGe y x then y :: insertPubDesc x ys else x :: y :: ys

/-- Stable sort by `published_at` descending, one model of sqlite's
`ORDER BY published_at DESC` (tie order is unspecified in SQL). -/
def sortPubDesc : List Row → List Row
  | [] => []
  | x :: xs => insertPubDesc x (sortPubDesc xs)

/-- `RSSAggregator.search`: join `feed_items` with `feed_items_fts` on
`rowid`, keep MATCH hits, order by `published_at DESC`, apply `LIMIT`. -/
def search (st : Store) (q : String) (lim : Nat) : List FeedItem :=
  let hits := st.items.filter (fun r =>
    st.fts.any (fun e => e.rowid == r.rowid && contentMatch q e.title e.summary e.author))
  ((sortPubDesc hits).take lim).map (fun r => r.item)

/-! ## The refresh engine -/

/-- Environment of one `RSSAggregator.refresh` call: everything the engine
consumes that is not in the store.  `fetched` is the outcome of invoking the
external fetcher (`.error msg` = the fetch raised), `itemIds` supplies the
`uuid4` id of the n-th inserted item, `faultAt k` injects a sqlite failure
into the k-th per-item transaction, `finalFault` injects one into the closing
count-and-update transaction, and `now` is `_now()`. -/
structure RefreshEnv where
  fetched : Except String (List RawItem)
  itemIds : Nat → String
  faultAt : Nat → Option String
  finalFault : Option String
  now : String

/-- The dict returned by a completed (non-skipped) refresh. -/
structure RefreshSummary where
  feed_id : String
  new_items : Nat
  duplicates : Nat
  total_items : Nat
deriving Repr, DecidableEq

/-- The dict returned by `RSSAggregator.refresh` when it does not raise. -/
inductive RefreshReturn where
  | skipped (feed_id : String)
  | done (r : RefreshSummary)
deriving Repr, DecidableEq

/-- Outcome of a `refresh` call: a returned dict, or a raised exception
carrying `str(e)`. -/
inductive RefreshOutcome where
  | ok (r : RefreshReturn)
  | err (msg : String)
deriving Repr, DecidableEq

/-- The `except` branch of `refresh`: `UPDATE feeds SET status='error',
error_message=? WHERE id=?`. -/
def setFeedError (st : Store) (feed_id msg : String) : Store :=
  { st with feeds := st.feeds.map (fun f =>
      if f.id == feed_id then { f with status := "error", error_message := some msg } else f) }

/-- `SELECT COUNT(*) FROM feed_items WHERE feed_id=?`. -/
def feedItemCount (st : Store) (feed_id : String) : Nat :=
  st.items.countP (fun r => r.item.feed_id == feed_id)

/-- The closing transaction of a successful refresh: `UPDATE feeds SET
last_fetched=?, status='active', item_count=? WHERE id=?`. -/
def finalizeFeed (st : Store) (feed_id now : String) (total : Nat) : Store :=
  { st with feeds := st.feeds.map (fun f =>
      if f.id == feed_id then
        { f with last_fetched := some now, status := "active", item_count := total } else f) }

/-- The per-item loop of `refresh`: for each raw item (iteration index `k`,
counters `newc`/`dupc`), either the injected fault raises out of the loop
(previous iterations stay committed), or the fingerprint existence check
decides between counting a duplicate and inserting a new item. -/
def processItems (env : RefreshEnv) (feed_id : String) :
    Nat → List RawItem → Store → Nat → Nat → Except (String × Store) (Store × Nat × Nat)
  | _, [], st, newc, dupc => .ok (st, newc, dupc)
  | k, raw :: rest, st, newc, dupc =>
    match env.faultAt k with
    | some msg => .error (msg, st)
    | none =>
      let fp := fingerprint raw.title raw.url
      if st.items.any (fun r => r.item.fingerprint == fp) then
        processItems env feed_id (k + 1) rest st newc (dupc + 1)
      else
        processItems env feed_id (k + 1) rest
          (sqlInsertItem st
            { id := env.itemIds newc, feed_id := feed_id, title := raw.title, url := raw.url,
              summary := raw.summary, author := raw.author, published_at := raw.published_at,
              fingerprint := fp, is_read := false, is_bookmarked := false,
              created_at := env.now })
          (newc + 1) dupc

/-- `RSSAggregator.refresh`: look the feed up (`ValueError` if absent —
raised before the `try`, so no status write), return a skip dict if paused,
otherwise fetch, run the dedup-insert loop, recount and finalize; any
exception inside the `try` triggers the error-status write and is re-raised. -/
def refresh (st : Store) (feed_id : String) (env : RefreshEnv) : RefreshOutcome × Store :=
  match get_feed st feed_id with
  | none => (.err ("Feed " ++ feed_id ++ " not found"), st)
  | some feed =>
    if feed.status == "paused" then (.ok (.skipped feed_id), st)
    else
      match env.fetched with
      | .error msg => (.err msg, setFeedError st feed_id msg)
      | .ok raws =>
        match processItems env feed_id 0 raws st 0 0 with
        | .error (msg, st1) => (.err msg, setFeedError st1 feed_id msg)
        | .ok (st1, newc, dupc) =>
          match env.finalFault with
          | some msg => (.err msg, setFeedError st1 feed_id msg)
          | none =>
            let total := feedItemCount st1 feed_id
            (.ok (.done ⟨feed_id, newc, dupc, total⟩), finalizeFeed st1 feed_id env.now total)

/-! ## Fleet refresh -/

/-- One entry of the list `refresh_all` returns: a refresh result dict, or
the error dict with keys `feed_id` and `error`. -/
inductive FleetEntry where
  | done (r : RefreshReturn)
  | failed (feed_id : String) (error : String)
deriving Repr, DecidableEq

/-- Ids of the feeds `SELECT id FROM feeds WHERE status='active'` returns. -/
def activeFeedIds (st : Store) : List String :=
  (st.feeds.filter (fun f => f.status == "active")).map (fun f => f.id)

/-- The loop of `refresh_all`: refresh each listed feed on the evolving
store, catching per-feed exceptions into `failed` entries. -/
def fleetGo (envs : String → RefreshEnv) : List String → Store → List FleetEntry × Store
  | [], st => ([], st)
  | id :: rest, st =>
    let step := refresh st id (envs id)
    let e := match step.1 with
      | .ok r => FleetEntry.done r
      | .err m => FleetEntry.failed id m
    let next := fleetGo envs rest step.2
    (e :: next.1, next.2)

/-- `RSSAggregator.refresh_all`: snapshot the active feed ids, then refresh
each, never letting one feed's exception abort the batch. -/
def refresh_all (st : Store) (envs : String → RefreshEnv) : List FleetEntry × Store :=
  fleetGo envs (activeFeedIds st) st

/-! ## Deduplication sweeper -/

/-- Sqlite `MIN(id)` over a nonempty group of TEXT ids (BINARY collation). -/
def minId : List String → String
  | [] => ""
  | x :: xs => xs.foldl (fun m y => if charsLt y.data m.data then y else m) x

/-- Ids of this fingerprint's group, in table order. -/
def groupIds (st : Store) (fp : String) : List String :=
  (st.items.filter (fun r => r.item.fingerprint == fp)).map (fun r => r.item.id)

/-- The rows of `SELECT fingerprint, COUNT(*) cnt, MIN(id) keep_id FROM
feed_items GROUP BY fingerprint HAVING cnt > 1`, as (fingerprint, keep_id)
pairs. -/
def dupGroups (st : Store) : List (String × String) :=
  (((st.items.map (fun r => r.item.fingerprint)).dedup).filter
      (fun fp => 1 < st.items.countP (fun r => r.item.fingerprint == fp))).map
    (fun fp => (fp, minId (groupIds st fp)))

/-- `RSSAggregator.deduplicate`: for each fingerprint group with more than
one member, delete every row of the group except `keep_id`, accumulating the
deleted rowcounts. -/
def deduplicate (st : Store) : Nat × Store :=
  (dupGroups st).foldl
    (fun acc g =>
      let d := sqlDeleteItems acc.2 (fun it => it.fingerprint == g.1 && !(it.id == g.2))
      (acc.1 + d.1, d.2))
    (0, st)

/-! ## Derived notions used to state the claims -/

/-- First injected store fault in the window of `n` loop iterations starting
at index `k`. -/
def scanFault (f : Nat → Option String) : Nat → Nat → Option String
  | _, 0 => none
  | k, n + 1 =>
    match f k with
    | some m => some m
    | none => scanFault f (k + 1) n

/-- The first failure a non-skipped `refresh` run with this environment will
hit: the fetch error, else the first per-item store fault, else the fault of
the closing transaction; `none` when the run succeeds. -/
def envFailure (env : RefreshEnv) : Option String :=
  match env.fetched with
  | .error m => some m
  | .ok raws =>
    match scanFault env.faultAt 0 raws.length with
    | some m => some m
    | none => env.finalFault

/-- The `feed_id` key of a returned refresh dict. -/
def retFeedId : RefreshReturn → String
  | .skipped f => f
  | .done r => r.feed_id

/-- The `feed_id` key of a `refresh_all` result entry. -/
def entryFeedId : FleetEntry → String
  | .done r => retFeedId r
  | .failed f _ => f

/-! ## Concrete fixtures for witnesses and counterexamples -/

/-- A fault-free id supply for inserted items. -/
def idSupply : Nat → String := fun n => "item-" ++ toString n

/-- Environment of a refresh whose fetch returns `raws` and whose store never
fails. -/
def okEnv (raws : List RawItem) (now : String) : RefreshEnv :=
  { fetched := .ok raws, itemIds := idSupply, faultAt := fun _ => none,
    finalFault := none, now := now }

/-- Environment of a refresh whose fetch raises `msg`. -/
def errEnv (msg now : String) : RefreshEnv :=
  { fetched := .error msg, itemIds := idSupply, faultAt := fun _ => none,
    finalFault := none, now := now }

/-- A feed fixture: active, with a stale error message left from an earlier
failure. -/
def feedA : Feed :=
  { id := "F1", name := "Tech", url := "https://example.com/tech.rss",
    category := "tech-news", fetch_interval_min := 60, last_fetched := none,
    status := "active", error_message := some "stale failure", item_count := 0,
    created_at := "T0" }

/-- A paused feed fixture. -/
def feedP : Feed :=
  { id := "F2", name := "Paused", url := "https://example.com/p.rss",
    category := "science", fetch_interval_min := 60, last_fetched := some "T9",
    status := "paused", error_message := none, item_count := 3, created_at := "T0" }

/-- An error-status feed fixture. -/
def feedE : Feed :=
  { id := "F3", name := "Broken", url := "https://example.com/e.rss",
    category := "science", fetch_interval_min := 60, last_fetched := none,
    status := "error", error_message := some "down", item_count := 0,
    created_at := "T0" }

/-- A raw item fixture as the fetcher returns it. -/
def rawA : RawItem :=
  { title := "AI Breakthrough", url := "https://example.com/ai",
    summary := "New models", author := "Jane", published_at := "P1" }

/-- A feed-item fixture builder. -/
def mkItem (id fid fp : String) : FeedItem :=
  { id := id, feed_id := fid, title := "Hello World", url := "https://example.com/h",
    summary := "greetings", author := "Ann", published_at := "P0", fingerprint := fp,
    is_read := false, is_bookmarked := false, created_at := "T0" }

/-- An item from another feed already carrying `rawA`'s fingerprint. -/
def itemDupA : FeedItem :=
  { id := "item-prev", feed_id := "F0", title := "Other Title",
    url := "https://other.example.com", summary := "", author := "",
    published_at := "P0", fingerprint := fingerprint rawA.title rawA.url,
    is_read := false, is_bookmarked := false, created_at := "T0" }

/-- Store holding `feedA` plus a foreign item with `rawA`'s fingerprint. -/
def stPre : Store := { feeds := [feedA], items := [⟨1, itemDupA⟩], fts := [], nextRowid := 2 }

/-- Store with a duplicated fingerprint group (ids `b`, `a`) and a singleton
group (id `c`). -/
def stDup : Store :=
  { feeds := [],
    items := [⟨1, mkItem "b" "F1" "fp1"⟩, ⟨2, mkItem "a" "F1" "fp1"⟩, ⟨3, mkItem "c" "F1" "fp2"⟩],
    fts := [], nextRowid := 4 }

/-- Store with the three status fixtures, for fleet refresh. -/
def stFleet : Store := { feeds := [feedA, feedP, feedE], items := [], fts := [], nextRowid := 1 }

/-- Store holding one item (with its FTS entry), for search and flag tests. -/
def stOne : Store :=
  { feeds := [feedA], items := [⟨1, mkItem "i1" "F1" "fp1"⟩],
    fts := [⟨1, "Hello World", "greetings", "Ann"⟩], nextRowid := 2 }

/-! ## Lemmas: normalization and the fingerprint generator -/

theorem char_toNat_ofNat (n : Nat) (h : n < 55296) : (Char.ofNat n).toNat = n := by
  have hv : Nat.isValidChar n := Or.inl h
  simp [Char.ofNat, Char.toNat, hv, Char.ofNatAux, UInt32.toNat]

theorem lowerChar_upperChar (c : Char) : lowerChar (upperChar c) = lowerChar c := by
  by_cases h : 97 ≤ c.toNat ∧ c.toNat ≤ 122
  · have h1 : (Char.ofNat (c.toNat - 32)).toNat = c.toNat - 32 :=
      char_toNat_ofNat _ (by omega)
    have hu : upperChar c = Char.ofNat (c.toNat - 32) := by
      unfold upperChar; exact if_pos h
    rw [hu]
    unfold lowerChar
    rw [h1, if_pos (by omega : 65 ≤ c.toNat - 32 ∧ c.toNat - 32 ≤ 90),
      if_neg (by omega : ¬(65 ≤ c.toNat ∧ c.toNat ≤ 90))]
    have h2 : c.toNat - 32 + 32 = c.toNat := by omega
    rw [h2, Char.ofNat_toNat]
  · have hu : upperChar c = c := by unfold upperChar; exact if_neg h
    rw [hu]

theorem pyLower_pyUpper (s : String) : pyLower (pyUpper s) = pyLower s := by
  apply String.ext
  simp [pyLower, pyUpper, Function.comp, lowerChar_upperChar]

theorem normText_pyUpper (s : String) : normText (pyUpper s) = normText s := by
  unfold normText
  rw [pyLower_pyUpper]

theorem compressRound_length (st : List Nat) (kw : Nat × Nat) :
    (compressRound st kw).length = st.length := by
  rcases st with _ | ⟨a, _ | ⟨b, _ | ⟨c, _ | ⟨d, _ | ⟨e, _ | ⟨f, _ | ⟨g, _ | ⟨h, _ | ⟨i, t⟩⟩⟩⟩⟩⟩⟩⟩⟩ <;>
    simp [compressRound]

theorem foldl_compressRound_length (l : List (Nat × Nat)) (h : List Nat) :
    (l.foldl compressRound h).length = h.length := by
  induction l generalizing h with
  | nil => rfl
  | cons x xs ih => simp [List.foldl_cons, ih, compressRound_length]

theorem processChunk_length (h chunk : List Nat) (hh : h.length = 8) :
    (processChunk h chunk).length = 8 := by
  simp [processChunk, List.length_zip, foldl_compressRound_length, hh]

theorem foldl_processChunk_length (cs : List (List Nat)) (h : List Nat) (hh : h.length = 8) :
    (cs.foldl processChunk h).length = 8 := by
  induction cs generalizing h with
  | nil => exact hh
  | cons c cs ih => exact ih _ (processChunk_length _ _ hh)

theorem sha256Words_length (m : List Nat) : (sha256Words m).length = 8 :=
  foldl_processChunk_length _ _ rfl

theorem flatten_map_wordHex_length (ws : List Nat) :
    ((ws.map wordHex).flatten).length = 8 * ws.length := by
  induction ws with
  | nil => rfl
  | cons w ws ih => simp [wordHex, ih]; ring

theorem sha256hex_length (m : List Nat) : (sha256hex m).length = 64 := by
  unfold sha256hex
  rw [flatten_map_wordHex_length, sha256Words_length]

theorem fingerprint_length (t u : String) : (fingerprint t u).length = 16 := by
  simp [fingerprint, String.length, List.length_take, sha256hex_length]

theorem fingerprint_congr (t u t' u' : String) (ht : normText t' = normText t)
    (hu : normText u' = normText u) : fingerprint t' u' = fingerprint t u := by
  unfold fingerprint
  rw [ht, hu]

theorem processItems_ok_grows (env : RefreshEnv) (fid : String) :
    ∀ (raws : List RawItem) (k : Nat) (st : Store) (newc dupc : Nat) (st1 : Store) (n d : Nat),
    processItems env fid k raws st newc dupc = .ok (st1, n, d) →
    st1.feeds = st.feeds ∧ ∃ tl, st1.items = st.items ++ tl := by
  intro raws
  induction raws with
  | nil =>
    intro k st newc dupc st1 n d h
    simp [processItems] at h
    exact ⟨by rw [h.1], ⟨[], by simp [h.1]⟩⟩
  | cons raw rest ih =>
    intro k st newc dupc st1 n d h
    rw [processItems] at h
    cases hf : env.faultAt k with
    | some m => rw [hf] at h; exact absurd h (by simp)
    | none =>
      rw [hf] at h
      simp only at h
      by_cases hex : st.items.any (fun r => r.item.fingerprint == fingerprint raw.title raw.url)
      · rw [if_pos hex] at h
        exact ih _ _ _ _ _ _ _ h
      · rw [if_neg hex] at h
        obtain ⟨hfeeds, tl, htl⟩ := ih _ _ _ _ _ _ _ h
        refine ⟨by rw [hfeeds]; rfl, ?_⟩
        simp [sqlInsertItem] at htl
        exact ⟨_, htl⟩

theorem processItems_error_grows (env : RefreshEnv) (fid : String) :
    ∀ (raws : List RawItem) (k : Nat) (st : Store) (newc dupc : Nat) (msg : String) (st1 : Store),
    processItems env fid k raws st newc dupc = .error (msg, st1) →
    st1.feeds = st.feeds ∧ ∃ tl, st1.items = st.items ++ tl := by
  intro raws
  induction raws with
  | nil =>
    intro k st newc dupc msg st1 h
    simp [processItems] at h
  | cons raw rest ih =>
    intro k st newc dupc msg st1 h
    rw [processItems] at h
    cases hf : env.faultAt k with
    | some m =>
      rw [hf] at h
      simp at h
      exact ⟨by rw [h.2], ⟨[], by simp [h.2]⟩⟩
    | none =>
      rw [hf] at h
      simp only at h
      by_cases hex : st.items.any (fun r => r.item.fingerprint == fingerprint raw.title raw.url)
      · rw [if_pos hex] at h
        exact ih _ _ _ _ _ _ h
      · rw [if_neg hex] at h
        obtain ⟨hfeeds, tl, htl⟩ := ih _ _ _ _ _ _ h
        refine ⟨by rw [hfeeds]; rfl, ?_⟩
        simp [sqlInsertItem] at htl
        exact ⟨_, htl⟩

theorem processItems_ok_counts (env : RefreshEnv) (fid : String) :
    ∀ (raws : List RawItem) (k : Nat) (st : Store) (newc dupc : Nat),
    scanFault env.faultAt k raws.length = none →
    ∃ st1 n d, processItems env fid k raws st newc dupc = .ok (st1, newc + n, dupc + d) ∧
      n + d = raws.length ∧ st1.items.length = st.items.length + n := by
  intro raws
  induction raws with
  | nil =>
    intro k st newc dupc _
    exact ⟨st, 0, 0, by simp [processItems], by simp, by simp⟩
  | cons raw rest ih =>
    intro k st newc dupc hsf
    rw [List.length_cons, scanFault] at hsf
    cases hf : env.faultAt k with
    | some m => rw [hf] at hsf; simp at hsf
    | none =>
      rw [hf] at hsf
      simp only at hsf
      by_cases hex : st.items.any (fun r => r.item.fingerprint == fingerprint raw.title raw.url)
      · obtain ⟨st1, n, d, heq, hnd, hlen⟩ := ih (k + 1) st newc (dupc + 1) hsf
        refine ⟨st1, n, d + 1, ?_, by simp; omega, hlen⟩
        rw [processItems, hf]
        simp only
        rw [if_pos hex]
        rw [show dupc + (d + 1) = dupc + 1 + d by omega]
        exact heq
      · obtain ⟨st1, n, d, heq, hnd, hlen⟩ := ih (k + 1) _ (newc + 1) dupc hsf
        refine ⟨st1, n + 1, d, ?_, by simp; omega, ?_⟩
        · rw [processItems, hf]
          simp only
          rw [if_neg hex]
          rw [show newc + (n + 1) = newc + 1 + n by omega]
          exact heq
        · simp [sqlInsertItem] at hlen
          omega

theorem processItems_error_exists (env : RefreshEnv) (fid : String) :
    ∀ (raws : List RawItem) (k : Nat) (st : Store) (newc dupc : Nat) (msg : String),
    scanFault env.faultAt k raws.length = some msg →
    ∃ st1, processItems env fid k raws st newc dupc = .error (msg, st1) := by
  intro raws
  induction raws with
  | nil =>
    intro k st newc dupc msg hsf
    simp [scanFault] at hsf
  | cons raw rest ih =>
    intro k st newc dupc msg hsf
    rw [List.length_cons, scanFault] at hsf
    cases hf : env.faultAt k with
    | some m =>
      rw [hf] at hsf
      simp only [Option.some.injEq] at hsf
      refine ⟨st, ?_⟩
      rw [processItems, hf, hsf]
    | none =>
      rw [hf] at hsf
      simp only at hsf
      by_cases hex : st.items.any (fun r => r.item.fingerprint == fingerprint raw.title raw.url)
      · obtain ⟨st1, heq⟩ := ih (k + 1) st newc (dupc + 1) msg hsf
        refine ⟨st1, ?_⟩
        rw [processItems, hf]
        simp only
        rw [if_pos hex]
        exact heq
      · obtain ⟨st1, heq⟩ := ih (k + 1) _ (newc + 1) dupc msg hsf
        refine ⟨st1, ?_⟩
        rw [processItems, hf]
        simp only
        rw [if_neg hex]
        exact heq

theorem processItems_fps_filter (env : RefreshEnv) (fid : String) :
    ∀ (raws : List RawItem) (k : Nat) (st : Store) (newc dupc : Nat) (st1 : Store) (n d : Nat),
    processItems env fid k raws st newc dupc = .ok (st1, n, d) →
    ∀ fp, st.items.any (fun r => r.item.fingerprint == fp) = true →
    st1.items.filter (fun r => r.item.fingerprint == fp) =
      st.items.filter (fun r => r.item.fingerprint == fp) := by
  intro raws
  induction raws with
  | nil =>
    intro k st newc dupc st1 n d h fp _
    simp [processItems] at h
    rw [h.1]
  | cons raw rest ih =>
    intro k st newc dupc st1 n d h fp hany
    rw [processItems] at h
    cases hf : env.faultAt k with
    | some m => rw [hf] at h; exact absurd h (by simp)
    | none =>
      rw [hf] at h
      simp only at h
      by_cases hex : st.items.any (fun r => r.item.fingerprint == fingerprint raw.title raw.url)
      · rw [if_pos hex] at h
        exact ih _ _ _ _ _ _ _ h fp hany
      · rw [if_neg hex] at h
        have hne : fingerprint raw.title raw.url ≠ fp := by
          intro hc
          rw [hc] at hex
          exact hex hany
        have hany2 : ((sqlInsertItem st
            { id := env.itemIds newc, feed_id := fid, title := raw.title, url := raw.url,
              summary := raw.summary, author := raw.author, published_at := raw.published_at,
              fingerprint := fingerprint raw.title raw.url, is_read := false,
              is_bookmarked := false, created_at := env.now }).items).any
            (fun r => r.item.fingerprint == fp) = true := by
          simp [sqlInsertItem]
          simp at hany
          exact Or.inl hany
        have := ih _ _ _ _ _ _ _ h fp hany2
        rw [this]
        simp [sqlInsertItem, List.filter_append, hne]

theorem processItems_all_present (env : RefreshEnv) (fid : String) :
    ∀ (raws : List RawItem) (k : Nat) (st : Store) (newc dupc : Nat) (st1 : Store) (n d : Nat),
    processItems env fid k raws st newc dupc = .ok (st1, n, d) →
    ∀ raw ∈ raws,
      st1.items.any (fun r => r.item.fingerprint == fingerprint raw.title raw.url) = true := by
  intro raws
  induction raws with
  | nil =>
    intro k st newc dupc st1 n d _ raw hmem
    simp at hmem
  | cons raw0 rest ih =>
    intro k st newc dupc st1 n d h raw hmem
    rw [processItems] at h
    cases hf : env.faultAt k with
    | some m => rw [hf] at h; exact absurd h (by simp)
    | none =>
      rw [hf] at h
      simp only at h
      by_cases hex : st.items.any (fun r => r.item.fingerprint == fingerprint raw0.title raw0.url)
      · rw [if_pos hex] at h
        rcases List.mem_cons.mp hmem with heq | hmem2
        · subst heq
          obtain ⟨_, tl, htl⟩ := processItems_ok_grows env fid _ _ _ _ _ _ _ _ h
          rw [htl]
          simp at hex ⊢
          exact Or.inl hex
        · exact ih _ _ _ _ _ _ _ h raw hmem2
      · rw [if_neg hex] at h
        rcases List.mem_cons.mp hmem with heq | hmem2
        · subst heq
          obtain ⟨_, tl, htl⟩ := processItems_ok_grows env fid _ _ _ _ _ _ _ _ h
          rw [htl]
          simp [sqlInsertItem]
        · exact ih _ _ _ _ _ _ _ h raw hmem2

theorem processItems_all_dup (env : RefreshEnv) (fid : String) :
    ∀ (raws : List RawItem) (k : Nat) (st : Store) (newc dupc : Nat),
    (∀ raw ∈ raws, st.items.any (fun r => r.item.fingerprint == fingerprint raw.title raw.url) = true) →
    scanFault env.faultAt k raws.length = none →
    processItems env fid k raws st newc dupc = .ok (st, newc, dupc + raws.length) := by
  intro raws
  induction raws with
  | nil => intro k st newc dupc _ _; simp [processItems]
  | cons raw rest ih =>
    intro k st newc dupc hall hsf
    rw [List.length_cons, scanFault] at hsf
    cases hf : env.faultAt k with
    | some m => rw [hf] at hsf; simp at hsf
    | none =>
      rw [hf] at hsf
      simp only at hsf
      have hex := hall raw (by simp)
      rw [processItems, hf]
      simp only
      rw [if_pos hex]
      have := ih (k + 1) st newc (dupc + 1) (fun r hr => hall r (by simp [hr])) hsf
      rw [this]
      have : dupc + 1 + rest.length = dupc + (rest.length + 1) := by omega
      rw [this]
      simp

theorem processItems_dup_bound (env : RefreshEnv) (fid : String) :
    ∀ (raws : List RawItem) (k : Nat) (st : Store) (newc dupc : Nat) (st1 : Store) (n d : Nat),
    processItems env fid k raws st newc dupc = .ok (st1, n, d) →
    dupc + raws.countP
      (fun raw => st.items.any (fun r => r.item.fingerprint == fingerprint raw.title raw.url)) ≤ d := by
  intro raws
  induction raws with
  | nil =>
    intro k st newc dupc st1 n d h
    simp [processItems] at h
    simp [h.2.2]
  | cons raw rest ih =>
    intro k st newc dupc st1 n d h
    rw [processItems] at h
    cases hf : env.faultAt k with
    | some m => rw [hf] at h; exact absurd h (by simp)
    | none =>
      rw [hf] at h
      simp only at h
      by_cases hex : st.items.any (fun r => r.item.fingerprint == fingerprint raw.title raw.url)
      · rw [if_pos hex] at h
        have := ih _ _ _ _ _ _ _ h
        rw [List.countP_cons]
        simp [hex]
        omega
      · rw [if_neg hex] at h
        have hb := ih _ _ _ _ _ _ _ h
        have hmono : rest.countP
            (fun raw2 => st.items.any (fun r => r.item.fingerprint == fingerprint raw2.title raw2.url)) ≤
            rest.countP (fun raw2 => ((sqlInsertItem st
              { id := env.itemIds newc, feed_id := fid, title := raw.title, url := raw.url,
                summary := raw.summary, author := raw.author, published_at := raw.published_at,
                fingerprint := fingerprint raw.title raw.url, is_read := false,
                is_bookmarked := false, created_at := env.now }).items).any
              (fun r => r.item.fingerprint == fingerprint raw2.title raw2.url)) := by
          apply List.countP_mono_left
          intro raw2 _ hp
          simp [sqlInsertItem]
          simp at hp
          exact Or.inl hp
        rw [List.countP_cons]
        simp [hex]
        omega

theorem find?_map_update (l : List Feed) (q : String) (g : Feed → Feed) (f : Feed)
    (hf : l.find? (fun x => x.id == q) = some f) (hg : (g f).id = f.id) :
    (l.map (fun x => if x.id == q then g x else x)).find? (fun x => x.id == q) = some (g f) := by
  induction l with
  | nil => simp at hf
  | cons a l ih =>
    by_cases ha : (a.id == q) = true
    · simp only [List.find?_cons, ha] at hf
      injection hf with hf
      subst hf
      simp only [List.map_cons, if_pos ha, List.find?_cons]
      have : ((g a).id == q) = true := by rw [hg]; exact ha
      simp [this]
    · simp only [List.find?_cons, ha] at hf
      simp only [List.map_cons, List.find?_cons]
      rw [if_neg (by simp [ha] : ¬((a.id == q) = true))]
      rw [Bool.not_eq_true] at ha
      rw [ha]
      exact ih hf

theorem get_feed_setFeedError (st : Store) (fid msg : String) (f : Feed)
    (hf : get_feed st fid = some f) :
    get_feed (setFeedError st fid msg) fid =
      some { f with status := "error", error_message := some msg } := by
  unfold get_feed setFeedError at *
  exact find?_map_update _ _ _ _ hf rfl

theorem get_feed_finalizeFeed (st : Store) (fid now : String) (total : Nat) (f : Feed)
    (hf : get_feed st fid = some f) :
    get_feed (finalizeFeed st fid now total) fid =
      some { f with last_fetched := some now, status := "active", item_count := total } := by
  unfold get_feed finalizeFeed at *
  exact find?_map_update _ _ _ _ hf rfl

theorem get_feed_of_feeds_eq (st st' : Store) (fid : String) (h : st'.feeds = st.feeds) :
    get_feed st' fid = get_feed st fid := by
  unfold get_feed
  rw [h]

theorem refresh_not_paused_shape (st : Store) (feed_id : String) (env : RefreshEnv) (feed : Feed)
    (raws : List RawItem)
    (hget : get_feed st feed_id = some feed) (hp : feed.status ≠ "paused")
    (hra : env.fetched = .ok raws) :
    refresh st feed_id env =
      (match processItems env feed_id 0 raws st 0 0 with
       | .error (msg, st1) => (.err msg, setFeedError st1 feed_id msg)
       | .ok (st1, newc, dupc) =>
         match env.finalFault with
         | some msg => (.err msg, setFeedError st1 feed_id msg)
         | none =>
           (.ok (.done ⟨feed_id, newc, dupc, feedItemCount st1 feed_id⟩),
            finalizeFeed st1 feed_id env.now (feedItemCount st1 feed_id))) := by
  unfold refresh
  rw [hget]
  simp only
  have hb : (feed.status == "paused") = false := by
    simp [hp]
  rw [hb]
  simp only [Bool.false_eq_true, if_false]
  rw [hra]

/-- C9: refreshing a paused feed returns the skip dict and the store is
returned untouched — every feed field, every item, the FTS index; and the
outcome is independent of the environment, i.e. the fetcher is never
consulted. -/
theorem C9_paused_refresh_noop (st : Store) (feed_id : String) (env : RefreshEnv) (feed : Feed)
    (hget : get_feed st feed_id = some feed) (hp : feed.status = "paused") :
    refresh st feed_id env = (.ok (.skipped feed_id), st) ∧
    ∀ env2 : RefreshEnv, refresh st feed_id env2 = refresh st feed_id env := by
  have h1 : ∀ env3 : RefreshEnv, refresh st feed_id env3 = (.ok (.skipped feed_id), st) := by
    intro env3
    unfold refresh
    rw [hget]
    simp [hp]
  exact ⟨h1 env, fun env2 => by rw [h1 env2, h1 env]⟩

/-- C9 witness: refreshing the paused fixture feed skips. -/
theorem C9_witness :
    refresh { feeds := [feedP], items := [], fts := [], nextRowid := 1 } "F2" (okEnv [rawA] "T1") =
      (.ok (.skipped "F2"), { feeds := [feedP], items := [], fts := [], nextRowid := 1 }) :=
  (C9_paused_refresh_noop _ _ _ feedP (by rfl) (by rfl)).1

/-- C1 (amended): when the feed exists, is not paused, and the fetch and all
store transactions succeed, single-feed refresh returns a result dict whose
`new_items` is the number of inserted items, `new_items + duplicates` is the
number of fetched items, and `total_items` is the recomputed count of items
owned by the feed; the feed row gets `last_fetched = now`, `status = active`
and `item_count = total_items`, with every other field — in particular
`error_message` — left unchanged (the error message is NOT cleared). -/
theorem C1_refresh_success_post (st : Store) (feed_id : String) (env : RefreshEnv) (feed : Feed)
    (raws : List RawItem)
    (hget : get_feed st feed_id = some feed) (hp : feed.status ≠ "paused")
    (hra : env.fetched = .ok raws)
    (hsf : scanFault env.faultAt 0 raws.length = none)
    (hff : env.finalFault = none) :
    ∃ r : RefreshSummary,
      (refresh st feed_id env).1 = .ok (.done r) ∧
      r.feed_id = feed_id ∧
      st.items.length + r.new_items = (refresh st feed_id env).2.items.length ∧
      r.new_items + r.duplicates = raws.length ∧
      r.total_items = feedItemCount (refresh st feed_id env).2 feed_id ∧
      get_feed (refresh st feed_id env).2 feed_id =
        some { feed with last_fetched := some env.now, status := "active",
                         item_count := r.total_items } := by
  obtain ⟨st1, n, d, heq, hnd, hlen⟩ := processItems_ok_counts env feed_id raws 0 st 0 0 hsf
  simp only [Nat.zero_add] at heq
  have href := refresh_not_paused_shape st feed_id env feed raws hget hp hra
  rw [heq] at href
  simp only at href
  rw [hff] at href
  simp only at href
  obtain ⟨hfeeds, tl, htl⟩ := processItems_ok_grows env feed_id raws 0 st 0 0 st1 n d heq
  refine ⟨⟨feed_id, n, d, feedItemCount st1 feed_id⟩, ?_, rfl, ?_, ?_, ?_, ?_⟩
  · rw [href]
  · rw [href]
    simpa [finalizeFeed] using hlen.symm
  · exact hnd
  · rw [href]
    simp only
    rfl
  · rw [href]
    simp only
    have hg1 : get_feed st1 feed_id = some feed := by
      rw [get_feed_of_feeds_eq st st1 feed_id hfeeds, hget]
    exact get_feed_finalizeFeed st1 feed_id env.now _ feed hg1

/-- C1 witness: the amended theorem applied to a concrete one-feed store and a
one-item fetch. -/
theorem C1_witness :
    ∃ r : RefreshSummary,
      (refresh { feeds := [feedA], items := [], fts := [], nextRowid := 1 } "F1" (okEnv [rawA] "T1")).1 = .ok (.done r) ∧
      r.feed_id = "F1" ∧
      (({ feeds := [feedA], items := [], fts := [], nextRowid := 1 } : Store)).items.length + r.new_items =
        (refresh { feeds := [feedA], items := [], fts := [], nextRowid := 1 } "F1" (okEnv [rawA] "T1")).2.items.length ∧
      r.new_items + r.duplicates = [rawA].length ∧
      r.total_items = feedItemCount (refresh { feeds := [feedA], items := [], fts := [], nextRowid := 1 } "F1" (okEnv [rawA] "T1")).2 "F1" ∧
      get_feed (refresh { feeds := [feedA], items := [], fts := [], nextRowid := 1 } "F1" (okEnv [rawA] "T1")).2 "F1" =
        some { feedA with last_fetched := some "T1", status := "active",
                          item_count := r.total_items } :=
  C1_refresh_success_post _ _ _ feedA [rawA] rfl (by decide) rfl rfl rfl

/-- C1 (counterexample): a successful refresh of a feed that carries a stale
error message leaves `error_message` unchanged — the closing `UPDATE feeds SET
last_fetched=?, status='active', item_count=?` never clears it, so the claim's
"error_message becomes null" is false on this concrete run. -/
theorem C1_counterexample :
    (refresh { feeds := [feedA], items := [], fts := [], nextRowid := 1 } "F1" (okEnv [] "T1")).1 =
      .ok (.done ⟨"F1", 0, 0, 0⟩) ∧
    (get_feed (refresh { feeds := [feedA], items := [], fts := [], nextRowid := 1 } "F1"
        (okEnv [] "T1")).2 "F1").map (fun f => f.error_message) = some (some "stale failure") := by
  constructor
  · rfl
  · rfl

/-- C5: when the fetch raises, or any per-item store transaction raises, or
the closing transaction raises, refresh re-raises the original message, the
feed row is set to `status = error` with that message captured in
`error_message`, and the store's items are exactly the original items plus the
items committed before the failure point (partial progress is kept, nothing
is rolled back). -/
theorem C5_refresh_failure (st : Store) (feed_id : String) (env : RefreshEnv) (feed : Feed)
    (msg : String)
    (hget : get_feed st feed_id = some feed) (hp : feed.status ≠ "paused")
    (hfail : envFailure env = some msg) :
    (refresh st feed_id env).1 = .err msg ∧
    get_feed (refresh st feed_id env).2 feed_id =
      some { feed with status := "error", error_message := some msg } ∧
    ∃ tl, (refresh st feed_id env).2.items = st.items ++ tl := by
  unfold envFailure at hfail
  have hb : (feed.status == "paused") = false := by simp [hp]
  cases hra : env.fetched with
  | error m =>
    rw [hra] at hfail
    simp only [Option.some.injEq] at hfail
    subst hfail
    have href : refresh st feed_id env = (.err m, setFeedError st feed_id m) := by
      unfold refresh
      rw [hget]
      simp only
      rw [hb]
      simp only [Bool.false_eq_true, if_false]
      rw [hra]
    rw [href]
    refine ⟨rfl, ?_, ⟨[], by simp [setFeedError]⟩⟩
    exact get_feed_setFeedError st feed_id m feed hget
  | ok raws =>
    rw [hra] at hfail
    simp only at hfail
    have hshape := refresh_not_paused_shape st feed_id env feed raws hget hp hra
    cases hsf : scanFault env.faultAt 0 raws.length with
    | some m =>
      rw [hsf] at hfail
      simp only [Option.some.injEq] at hfail
      subst hfail
      obtain ⟨st1, heq⟩ := processItems_error_exists env feed_id raws 0 st 0 0 m hsf
      rw [heq] at hshape
      simp only at hshape
      obtain ⟨hfeeds, tl, htl⟩ := processItems_error_grows env feed_id raws 0 st 0 0 m st1 heq
      rw [hshape]
      refine ⟨rfl, ?_, ⟨tl, by simp [setFeedError, htl]⟩⟩
      have hg1 : get_feed st1 feed_id = some feed := by
        rw [get_feed_of_feeds_eq st st1 feed_id hfeeds, hget]
      exact get_feed_setFeedError st1 feed_id m feed hg1
    | none =>
      rw [hsf] at hfail
      simp only at hfail
      obtain ⟨st1, n, d, heq, hnd, hlen⟩ := processItems_ok_counts env feed_id raws 0 st 0 0 hsf
      simp only [Nat.zero_add] at heq
      rw [heq] at hshape
      simp only at hshape
      rw [hfail] at hshape
      simp only at hshape
      obtain ⟨hfeeds, tl, htl⟩ := processItems_ok_grows env feed_id raws 0 st 0 0 st1 n d heq
      rw [hshape]
      refine ⟨rfl, ?_, ⟨tl, by simp [setFeedError, htl]⟩⟩
      have hg1 : get_feed st1 feed_id = some feed := by
        rw [get_feed_of_feeds_eq st st1 feed_id hfeeds, hget]
      exact get_feed_setFeedError st1 feed_id msg feed hg1

/-- C5 witness: a fetch failure on the concrete one-feed store. -/
theorem C5_witness :
    (refresh { feeds := [feedA], items := [], fts := [], nextRowid := 1 } "F1"
        (errEnv "boom" "T1")).1 = .err "boom" ∧
    get_feed (refresh { feeds := [feedA], items := [], fts := [], nextRowid := 1 } "F1"
        (errEnv "boom" "T1")).2 "F1" =
      some { feedA with status := "error", error_message := some "boom" } ∧
    ∃ tl, (refresh { feeds := [feedA], items := [], fts := [], nextRowid := 1 } "F1"
        (errEnv "boom" "T1")).2.items =
      (({ feeds := [feedA], items := [], fts := [], nextRowid := 1 } : Store)).items ++ tl :=
  C5_refresh_failure _ _ _ feedA "boom" rfl (by decide) rfl

/-- C2 (counterexample): a reachable run — add a feed, fail its refresh (the
feed becomes `error`), then call `resume_feed` — moves the feed from `error`
straight to `active`, contradicting the claim that no resume call moves a feed
out of the error status. -/
theorem C2_counterexample :
    (get_feed (refresh (add_feed { feeds := [], items := [], fts := [], nextRowid := 1 }
        "Tech" "https://example.com/t.rss" "tech-news" 60 "F1" "T0").2 "F1"
        (errEnv "boom" "T1")).2 "F1").map (fun f => f.status) = some "error" ∧
    (resume_feed (refresh (add_feed { feeds := [], items := [], fts := [], nextRowid := 1 }
        "Tech" "https://example.com/t.rss" "tech-news" 60 "F1" "T0").2 "F1"
        (errEnv "boom" "T1")).2 "F1").1 = true ∧
    (get_feed (resume_feed (refresh (add_feed { feeds := [], items := [], fts := [], nextRowid := 1 }
        "Tech" "https://example.com/t.rss" "tech-news" 60 "F1" "T0").2 "F1"
        (errEnv "boom" "T1")).2 "F1").2 "F1").map (fun f => f.status) = some "active" :=
  ⟨rfl, rfl, rfl⟩

/-- C2 (amended): `pause_feed` and `resume_feed` are unconditional
`UPDATE ... WHERE id=?` writes: they set the matched feed's status to
`paused` / `active` regardless of its previous status (including `error`),
touch no other feed field, no other feed, and no items; the returned boolean
is exactly "a feed with this id exists".  (The refresh-driven transitions
active→error on failure and →active on success are `C5_refresh_failure` and
`C1_refresh_success_post`.) -/
theorem C2_pause_resume_transitions (st : Store) (feed_id : String) :
    (pause_feed st feed_id).1 = st.feeds.any (fun f => f.id == feed_id) ∧
    (pause_feed st feed_id).2.items = st.items ∧
    (pause_feed st feed_id).2.fts = st.fts ∧
    (∀ (k : Nat) (f : Feed), st.feeds[k]? = some f →
      (pause_feed st feed_id).2.feeds[k]? =
        some (if f.id = feed_id then { f with status := "paused" } else f)) ∧
    (resume_feed st feed_id).1 = st.feeds.any (fun f => f.id == feed_id) ∧
    (resume_feed st feed_id).2.items = st.items ∧
    (resume_feed st feed_id).2.fts = st.fts ∧
    (∀ (k : Nat) (f : Feed), st.feeds[k]? = some f →
      (resume_feed st feed_id).2.feeds[k]? =
        some (if f.id = feed_id then { f with status := "active" } else f)) := by
  refine ⟨rfl, rfl, rfl, ?_, rfl, rfl, rfl, ?_⟩
  · intro k f hk
    show (st.feeds.map (fun f =>
      if f.id == feed_id then { f with status := "paused" } else f))[k]? = _
    rw [List.getElem?_map, hk]
    simp only [Option.map_some']
    by_cases h : f.id = feed_id
    · simp [h]
    · rw [if_neg (show ¬((f.id == feed_id) = true) by simp [h]), if_neg h]
  · intro k f hk
    show (st.feeds.map (fun f =>
      if f.id == feed_id then { f with status := "active" } else f))[k]? = _
    rw [List.getElem?_map, hk]
    simp only [Option.map_some']
    by_cases h : f.id = feed_id
    · simp [h]
    · rw [if_neg (show ¬((f.id == feed_id) = true) by simp [h]), if_neg h]

/-- C2 witness: pausing and resuming the error-status fixture feed rewrites
its status. -/
theorem C2_witness :
    (pause_feed stFleet "F3").2.feeds[2]? = some { feedE with status := "paused" } ∧
    (resume_feed stFleet "F3").2.feeds[2]? = some { feedE with status := "active" } := by
  constructor
  · have h := (C2_pause_resume_transitions stFleet "F3").2.2.2.1 2 feedE (by rfl)
    rw [if_pos (show feedE.id = "F3" from rfl)] at h
    exact h
  · have h := (C2_pause_resume_transitions stFleet "F3").2.2.2.2.2.2.2 2 feedE (by rfl)
    rw [if_pos (show feedE.id = "F3" from rfl)] at h
    exact h

/-- C3 (amended): refreshing twice with the fetcher returning the same items
makes the second refresh report `new_items = 0`, `duplicates = first.new_items
+ first.duplicates` (the claim's `duplicates = first.new_items` holds only
when the first refresh saw no duplicates), and the second refresh inserts
nothing.  The general dedup guarantee holds: a raw item whose fingerprint is
already anywhere in the store adds no item with that fingerprint, and the
duplicate count is at least the number of such raw items (cross-feed: the
existence check has no feed filter). -/
theorem C3_refresh_dedup (st : Store) (feed_id : String) (env1 env2 : RefreshEnv) (feed : Feed)
    (raws : List RawItem)
    (hget : get_feed st feed_id = some feed) (hp : feed.status ≠ "paused")
    (h1 : env1.fetched = .ok raws) (hsf1 : scanFault env1.faultAt 0 raws.length = none)
    (hff1 : env1.finalFault = none)
    (h2 : env2.fetched = .ok raws) (hsf2 : scanFault env2.faultAt 0 raws.length = none)
    (hff2 : env2.finalFault = none) :
    ∃ r1 r2 : RefreshSummary,
      (refresh st feed_id env1).1 = .ok (.done r1) ∧
      (refresh (refresh st feed_id env1).2 feed_id env2).1 = .ok (.done r2) ∧
      r2.new_items = 0 ∧
      r2.duplicates = r1.new_items + r1.duplicates ∧
      (refresh (refresh st feed_id env1).2 feed_id env2).2.items =
        (refresh st feed_id env1).2.items ∧
      (∀ raw ∈ raws,
        st.items.any (fun r => r.item.fingerprint == fingerprint raw.title raw.url) = true →
        (refresh st feed_id env1).2.items.filter
            (fun r => r.item.fingerprint == fingerprint raw.title raw.url) =
          st.items.filter (fun r => r.item.fingerprint == fingerprint raw.title raw.url)) ∧
      raws.countP
          (fun raw => st.items.any (fun r => r.item.fingerprint == fingerprint raw.title raw.url)) ≤
        r1.duplicates := by
  obtain ⟨st1, n, d, heq, hnd, hlen⟩ := processItems_ok_counts env1 feed_id raws 0 st 0 0 hsf1
  simp only [Nat.zero_add] at heq
  have hshape1 := refresh_not_paused_shape st feed_id env1 feed raws hget hp h1
  rw [heq] at hshape1
  simp only at hshape1
  rw [hff1] at hshape1
  simp only at hshape1
  obtain ⟨hfeeds1, tl1, htl1⟩ := processItems_ok_grows env1 feed_id raws 0 st 0 0 st1 n d heq
  -- the store after the first refresh
  have hst2 : (refresh st feed_id env1).2 = finalizeFeed st1 feed_id env1.now (feedItemCount st1 feed_id) := by
    rw [hshape1]
  have hitems2 : (refresh st feed_id env1).2.items = st1.items := by rw [hst2]; rfl
  -- the feed record after the first refresh
  have hg1 : get_feed st1 feed_id = some feed := by
    rw [get_feed_of_feeds_eq st st1 feed_id hfeeds1, hget]
  have hget2 : get_feed (refresh st feed_id env1).2 feed_id =
      some { feed with last_fetched := some env1.now, status := "active",
                       item_count := feedItemCount st1 feed_id } := by
    rw [hst2]
    exact get_feed_finalizeFeed st1 feed_id env1.now _ feed hg1
  -- every fetched fingerprint is present after the first refresh
  have hall : ∀ raw ∈ raws,
      (refresh st feed_id env1).2.items.any
        (fun r => r.item.fingerprint == fingerprint raw.title raw.url) = true := by
    intro raw hmem
    rw [hitems2]
    exact processItems_all_present env1 feed_id raws 0 st 0 0 st1 n d heq raw hmem
  -- the second refresh only counts duplicates
  have hloop2 := processItems_all_dup env2 feed_id raws 0 (refresh st feed_id env1).2 0 0 hall hsf2
  have hshape2 := refresh_not_paused_shape (refresh st feed_id env1).2 feed_id env2
      { feed with last_fetched := some env1.now, status := "active",
                  item_count := feedItemCount st1 feed_id } raws hget2 (by simp) h2
  rw [hloop2] at hshape2
  simp only [Nat.zero_add] at hshape2
  rw [hff2] at hshape2
  simp only at hshape2
  refine ⟨⟨feed_id, n, d, feedItemCount st1 feed_id⟩,
    ⟨feed_id, 0, raws.length, feedItemCount (refresh st feed_id env1).2 feed_id⟩,
    by rw [hshape1], by rw [hshape2], rfl, by simp [hnd], by rw [hshape2]; rfl, ?_, ?_⟩
  · intro raw hmem hany
    rw [hitems2]
    exact processItems_fps_filter env1 feed_id raws 0 st 0 0 st1 n d heq _ hany
  · have := processItems_dup_bound env1 feed_id raws 0 st 0 0 st1 n d heq
    simpa using this

/-- C3 (counterexample): with a foreign item already carrying the fetched
item's fingerprint, both refreshes report `duplicates = 1`, so the second
refresh's `duplicates` (1) differs from the first refresh's `new_items` (0). -/
theorem C3_counterexample :
    (refresh stPre "F1" (okEnv [rawA] "T1")).1 = .ok (.done ⟨"F1", 0, 1, 0⟩) ∧
    (refresh (refresh stPre "F1" (okEnv [rawA] "T1")).2 "F1" (okEnv [rawA] "T2")).1 =
      .ok (.done ⟨"F1", 0, 1, 0⟩) ∧
    (1 : Nat) ≠ 0 := by
  refine ⟨by rfl, by rfl, by decide⟩

/-- C3 witness: the amended theorem applied to the concrete pre-seeded
store. -/
theorem C3_witness :
    ∃ r1 r2 : RefreshSummary,
      (refresh stPre "F1" (okEnv [rawA] "T1")).1 = .ok (.done r1) ∧
      (refresh (refresh stPre "F1" (okEnv [rawA] "T1")).2 "F1" (okEnv [rawA] "T2")).1 =
        .ok (.done r2) ∧
      r2.new_items = 0 ∧
      r2.duplicates = r1.new_items + r1.duplicates ∧
      (refresh (refresh stPre "F1" (okEnv [rawA] "T1")).2 "F1" (okEnv [rawA] "T2")).2.items =
        (refresh stPre "F1" (okEnv [rawA] "T1")).2.items ∧
      (∀ raw ∈ [rawA],
        stPre.items.any (fun r => r.item.fingerprint == fingerprint raw.title raw.url) = true →
        (refresh stPre "F1" (okEnv [rawA] "T1")).2.items.filter
            (fun r => r.item.fingerprint == fingerprint raw.title raw.url) =
          stPre.items.filter (fun r => r.item.fingerprint == fingerprint raw.title raw.url)) ∧
      ([rawA] : List RawItem).countP
          (fun raw => stPre.items.any (fun r => r.item.fingerprint == fingerprint raw.title raw.url)) ≤
        r1.duplicates :=
  C3_refresh_dedup stPre "F1" (okEnv [rawA] "T1") (okEnv [rawA] "T2") feedA [rawA]
    rfl (by decide) rfl rfl rfl rfl rfl rfl

theorem fleetGo_length (envs : String → RefreshEnv) :
    ∀ (ids : List String) (st : Store), (fleetGo envs ids st).1.length = ids.length := by
  intro ids
  induction ids with
  | nil => intro st; rfl
  | cons id rest ih =>
    intro st
    simp only [fleetGo, List.length_cons]
    rw [ih]

theorem fleetGo_getElem (envs : String → RefreshEnv) :
    ∀ (ids : List String) (st : Store) (k : Nat) (id : String), ids[k]? = some id →
    (fleetGo envs ids st).1[k]? = some
      (match (refresh (fleetGo envs (ids.take k) st).2 id (envs id)).1 with
       | .ok r => FleetEntry.done r
       | .err m => FleetEntry.failed id m) := by
  intro ids
  induction ids with
  | nil => intro st k id hk; simp at hk
  | cons id0 rest ih =>
    intro st k id hk
    cases k with
    | zero =>
      simp only [List.getElem?_cons_zero, Option.some.injEq] at hk
      subst hk
      simp only [fleetGo, List.take_zero, List.getElem?_cons_zero]
    | succ k =>
      simp only [List.getElem?_cons_succ] at hk
      simp only [fleetGo, List.take_succ_cons, List.getElem?_cons_succ]
      exact ih _ k id hk

theorem refresh_ok_feedId (st : Store) (fid : String) (env : RefreshEnv) (r : RefreshReturn)
    (h : (refresh st fid env).1 = .ok r) : retFeedId r = fid := by
  unfold refresh at h
  cases hget : get_feed st fid with
  | none => rw [hget] at h; simp at h
  | some feed =>
    rw [hget] at h
    simp only at h
    by_cases hp : (feed.status == "paused") = true
    · rw [if_pos hp] at h
      simp only [RefreshOutcome.ok.injEq] at h
      rw [← h]
      rfl
    · rw [if_neg hp] at h
      cases hra : env.fetched with
      | error m => rw [hra] at h; simp at h
      | ok raws =>
        rw [hra] at h
        simp only at h
        cases hpi : processItems env fid 0 raws st 0 0 with
        | error p =>
          rw [hpi] at h
          obtain ⟨msg, st1⟩ := p
          simp at h
        | ok t =>
          rw [hpi] at h
          obtain ⟨st1, n, d⟩ := t
          simp only at h
          cases hff : env.finalFault with
          | some m => rw [hff] at h; simp at h
          | none =>
            rw [hff] at h
            simp only [RefreshOutcome.ok.injEq] at h
            rw [← h]
            rfl

/-- C6: `refresh_all` snapshots exactly the feeds whose status is `active`
(paused and error feeds are skipped), produces one result entry per such feed
in order, each entry being the single-feed refresh outcome on the evolving
store with a raised exception downgraded to a `failed feed_id msg` entry
(so the batch itself never raises), and every entry names the feed it came
from. -/
theorem C6_fleet_refresh (st : Store) (envs : String → RefreshEnv) :
    (refresh_all st envs).1.length = (activeFeedIds st).length ∧
    (∀ (k : Nat) (id : String), (activeFeedIds st)[k]? = some id →
      (refresh_all st envs).1[k]? = some
        (match (refresh (fleetGo envs ((activeFeedIds st).take k) st).2 id (envs id)).1 with
         | .ok r => FleetEntry.done r
         | .err m => FleetEntry.failed id m)) ∧
    (∀ (k : Nat) (id : String), (activeFeedIds st)[k]? = some id →
      ∃ e, (refresh_all st envs).1[k]? = some e ∧ entryFeedId e = id) := by
  refine ⟨fleetGo_length envs _ st, ?_, ?_⟩
  · intro k id hk
    exact fleetGo_getElem envs _ st k id hk
  · intro k id hk
    have h := fleetGo_getElem envs (activeFeedIds st) st k id hk
    cases hr : (refresh (fleetGo envs ((activeFeedIds st).take k) st).2 id (envs id)).1 with
    | ok r =>
      rw [hr] at h
      refine ⟨FleetEntry.done r, h, ?_⟩
      show retFeedId r = id
      exact refresh_ok_feedId _ _ _ _ hr
    | err m =>
      rw [hr] at h
      exact ⟨FleetEntry.failed id m, h, rfl⟩

/-- C6 witness: on the three-status fixture store only the active feed is
refreshed, and its fetch failure becomes an entry naming that feed. -/
theorem C6_witness :
    ∃ e, (refresh_all stFleet (fun _ => errEnv "boom" "T1")).1[0]? = some e ∧
      entryFeedId e = "F1" :=
  (C6_fleet_refresh stFleet (fun _ => errEnv "boom" "T1")).2.2 0 "F1" (by rfl)

theorem charsLt_irrefl : ∀ l : List Char, charsLt l l = false := by
  intro l
  induction l with
  | nil => rfl
  | cons a as ih => simp [charsLt, ih]

theorem charsLt_trans : ∀ a b c : List Char,
    charsLt a b = true → charsLt b c = true → charsLt a c = true := by
  intro a
  induction a with
  | nil =>
    intro b c hab hbc
    cases b with
    | nil => simp [charsLt] at hab
    | cons y ys =>
      cases c with
      | nil => simp [charsLt] at hbc
      | cons z zs => rfl
  | cons x xs ih =>
    intro b c hab hbc
    cases b with
    | nil => simp [charsLt] at hab
    | cons y ys =>
      cases c with
      | nil => simp [charsLt] at hbc
      | cons z zs =>
        simp only [charsLt, Bool.or_eq_true, decide_eq_true_eq, Bool.and_eq_true,
          beq_iff_eq] at hab hbc ⊢
        rcases hab with h1 | ⟨h1e, h1r⟩ <;> rcases hbc with h2 | ⟨h2e, h2r⟩
        · left; omega
        · left; omega
        · left; omega
        · right; exact ⟨by omega, ih _ _ h1r h2r⟩

theorem charsLt_total : ∀ a b : List Char,
    charsLt a b = false → charsLt b a = true ∨ a = b := by
  intro a
  induction a with
  | nil =>
    intro b hab
    cases b with
    | nil => right; rfl
    | cons y ys => simp [charsLt] at hab
  | cons x xs ih =>
    intro b hab
    cases b with
    | nil => left; rfl
    | cons y ys =>
      rw [charsLt] at hab
      by_cases hxylt : x.toNat < y.toNat
      · rw [decide_eq_true hxylt] at hab
        simp at hab
      · by_cases hxy : x.toNat = y.toNat
        · have hx : x = y := Char.eq_of_val_eq (UInt32.ext hxy)
          subst hx
          have hr : charsLt xs ys = false := by
            cases hcr : charsLt xs ys with
            | false => rfl
            | true => rw [hcr] at hab; simp at hab
          rcases ih ys hr with h | h
          · left; rw [charsLt]; simp [h]
          · right; rw [h]
        · left
          rw [charsLt]
          have hyx : y.toNat < x.toNat := by omega
          simp [hyx]

theorem foldl_minId_mem : ∀ (xs : List String) (m : String),
    xs.foldl (fun m y => if charsLt y.data m.data then y else m) m = m ∨
    xs.foldl (fun m y => if charsLt y.data m.data then y else m) m ∈ xs := by
  intro xs
  induction xs with
  | nil => intro m; left; rfl
  | cons z zs ih =>
    intro m
    simp only [List.foldl_cons]
    by_cases h : charsLt z.data m.data
    · rw [if_pos h]
      rcases ih z with h2 | h2
      · right; rw [h2]; exact List.mem_cons_self z zs
      · right; exact List.mem_cons_of_mem z h2
    · rw [if_neg h]
      rcases ih m with h2 | h2
      · left; exact h2
      · right; exact List.mem_cons_of_mem z h2

theorem foldl_minId_le : ∀ (xs : List String) (m : String) (y : String),
    (y = m ∨ y ∈ xs) →
    charsLt y.data (xs.foldl (fun m y => if charsLt y.data m.data then y else m) m).data = false := by
  intro xs
  induction xs with
  | nil =>
    intro m y hy
    rcases hy with hy | hy
    · subst hy; exact charsLt_irrefl _
    · simp at hy
  | cons z zs ih =>
    intro m y hy
    simp only [List.foldl_cons]
    by_cases h : charsLt z.data m.data = true
    · rw [if_pos h]
      rcases hy with hy | hy
      · -- y = m, and z is strictly below m
        subst hy
        by_contra hcon
        rw [Bool.not_eq_false] at hcon
        have hzres := ih z z (Or.inl rfl)
        rw [charsLt_trans z.data y.data _ h hcon] at hzres
        simp at hzres
      · rcases List.mem_cons.mp hy with hy | hy
        · subst hy; exact ih y y (Or.inl rfl)
        · exact ih z y (Or.inr hy)
    · rw [if_neg h]
      rcases hy with hy | hy
      · subst hy; exact ih y y (Or.inl rfl)
      · rcases List.mem_cons.mp hy with hy | hy
        · -- y = z, and z is not strictly below m
          subst hy
          by_contra hcon
          rw [Bool.not_eq_false] at hcon
          have hmres := ih m m (Or.inl rfl)
          rcases charsLt_total m.data _ hmres with hrm | hrm
          · exact h (charsLt_trans y.data _ m.data hcon hrm)
          · rw [← hrm] at hcon
            exact h hcon
        · exact ih m y (Or.inr hy)

theorem minId_mem : ∀ (xs : List String), xs ≠ [] → minId xs ∈ xs := by
  intro xs hne
  cases xs with
  | nil => exact absurd rfl hne
  | cons x rest =>
    rw [minId]
    rcases foldl_minId_mem rest x with h | h
    · rw [h]; exact List.mem_cons_self x rest
    · exact List.mem_cons_of_mem x h

theorem minId_min : ∀ (xs : List String) (y : String), y ∈ xs →
    charsLt y.data (minId xs).data = false := by
  intro xs y hy
  cases xs with
  | nil => simp at hy
  | cons x rest =>
    rw [minId]
    rcases List.mem_cons.mp hy with h | h
    · subst h; exact foldl_minId_le rest y y (Or.inl rfl)
    · exact foldl_minId_le rest x y (Or.inr h)

theorem length_filter_split (l : List Row) (p : Row → Bool) :
    (l.filter p).length + (l.filter (fun x => !(p x))).length = l.length := by
  induction l with
  | nil => rfl
  | cons a l ih =>
    cases ha : p a <;> simp [List.filter_cons, ha] <;> omega

theorem dedupFold_items : ∀ (gs : List (String × String)) (acc : Nat) (s : Store),
    ((gs.foldl (fun acc g =>
        let d := sqlDeleteItems acc.2 (fun it => it.fingerprint == g.1 && !(it.id == g.2))
        (acc.1 + d.1, d.2)) (acc, s)).2).items =
      s.items.filter (fun r =>
        gs.all (fun g => !(r.item.fingerprint == g.1 && !(r.item.id == g.2)))) := by
  intro gs
  induction gs with
  | nil =>
    intro acc s
    simp
  | cons g gs ih =>
    intro acc s
    simp only [List.foldl_cons]
    rw [ih]
    show ((sqlDeleteItems s (fun it => it.fingerprint == g.1 && !(it.id == g.2))).2.items.filter _) = _
    simp only [sqlDeleteItems]
    rw [List.filter_filter]
    apply List.filter_congr
    intro r _
    simp only [List.all_cons]
    cases h1 : (r.item.fingerprint == g.1 && !(r.item.id == g.2)) <;>
      simp [h1]

theorem dedupFold_count : ∀ (gs : List (String × String)) (acc : Nat) (s : Store),
    (gs.foldl (fun acc g =>
        let d := sqlDeleteItems acc.2 (fun it => it.fingerprint == g.1 && !(it.id == g.2))
        (acc.1 + d.1, d.2)) (acc, s)).1 +
      ((gs.foldl (fun acc g =>
        let d := sqlDeleteItems acc.2 (fun it => it.fingerprint == g.1 && !(it.id == g.2))
        (acc.1 + d.1, d.2)) (acc, s)).2).items.length = acc + s.items.length := by
  intro gs
  induction gs with
  | nil => intro acc s; rfl
  | cons g gs ih =>
    intro acc s
    simp only [List.foldl_cons]
    rw [ih]
    show acc + (s.items.filter _).length +
      ((sqlDeleteItems s _).2).items.length = acc + s.items.length
    simp only [sqlDeleteItems]
    have := length_filter_split s.items
      (fun r => r.item.fingerprint == g.1 && !(r.item.id == g.2))
    omega

theorem nodup_ids_countP_le_one (l : List Row)
    (h : (l.map (fun r => r.item.id)).Nodup) (v : String) :
    l.countP (fun r => r.item.id == v) ≤ 1 := by
  induction l with
  | nil => simp
  | cons r rest ih =>
    simp only [List.map_cons, List.nodup_cons] at h
    obtain ⟨hnot, hrest⟩ := h
    by_cases hr : (r.item.id == v) = true
    · rw [List.countP_cons_of_pos (fun r2 => r2.item.id == v) rest hr]
      have hz : rest.countP (fun r2 => r2.item.id == v) = 0 := by
        rw [List.countP_eq_zero]
        intro r2 hr2 hc
        apply hnot
        have hv : r.item.id = v := by simpa using hr
        have hv2 : r2.item.id = v := by simpa using hc
        rw [hv, ← hv2]
        exact List.mem_map.mpr ⟨r2, hr2, rfl⟩
      omega
    · rw [List.countP_cons_of_neg (fun r2 => r2.item.id == v) rest hr]
      exact ih hrest

theorem two_mem_countP (l : List Row) (a b : Row) (p : Row → Bool)
    (ha : a ∈ l) (hb : b ∈ l) (hne : a ≠ b) (hpa : p a = true) (hpb : p b = true) :
    2 ≤ l.countP p := by
  induction l with
  | nil => simp at ha
  | cons x xs ih =>
    rcases List.mem_cons.mp ha with hax | hax
    · subst hax
      rw [List.countP_cons_of_pos _ _ hpa]
      have hbxs : b ∈ xs := by
        rcases List.mem_cons.mp hb with hbx | hbx
        · exact absurd hbx.symm hne
        · exact hbx
      have : 0 < xs.countP p := List.countP_pos_iff.mpr ⟨b, hbxs, hpb⟩
      omega
    · rcases List.mem_cons.mp hb with hbx | hbx
      · subst hbx
        rw [List.countP_cons_of_pos _ _ hpb]
        have : 0 < xs.countP p := List.countP_pos_iff.mpr ⟨a, hax, hpa⟩
        omega
      · have := ih hax hbx
        cases hx : p x
        · rw [List.countP_cons_of_neg _ _ (by simp [hx])]
          exact this
        · rw [List.countP_cons_of_pos _ _ hx]
          omega

theorem dupGroups_mem (st : Store) (g : String × String) :
    g ∈ dupGroups st ↔
      ∃ fp, fp ∈ st.items.map (fun r => r.item.fingerprint) ∧
        1 < st.items.countP (fun r => r.item.fingerprint == fp) ∧
        g = (fp, minId (groupIds st fp)) := by
  unfold dupGroups
  constructor
  · intro h
    obtain ⟨fp, hfp, hg⟩ := List.mem_map.mp h
    obtain ⟨hmem, hcnt⟩ := List.mem_filter.mp hfp
    exact ⟨fp, List.mem_dedup.mp hmem, by simpa using hcnt, hg.symm⟩
  · intro ⟨fp, hmem, hcnt, hg⟩
    apply List.mem_map.mpr
    exact ⟨fp, List.mem_filter.mpr ⟨List.mem_dedup.mpr hmem, by simpa using hcnt⟩, hg.symm⟩

theorem dedup_items_filter (st : Store) :
    (deduplicate st).2.items = st.items.filter (fun r =>
      (dupGroups st).all (fun g => !(r.item.fingerprint == g.1 && !(r.item.id == g.2)))) :=
  dedupFold_items (dupGroups st) 0 st

theorem dedup_P_of_unique (st : Store) (r : Row) (_hr : r ∈ st.items)
    (hle : st.items.countP (fun r2 => r2.item.fingerprint == r.item.fingerprint) ≤ 1) :
    ((dupGroups st).all (fun g => !(r.item.fingerprint == g.1 && !(r.item.id == g.2)))) = true := by
  rw [List.all_eq_true]
  intro g hg
  obtain ⟨fp, hmem, hcnt, hgeq⟩ := (dupGroups_mem st g).mp hg
  subst hgeq
  by_cases hfp : (r.item.fingerprint == fp) = true
  · exfalso
    have : r.item.fingerprint = fp := by simpa using hfp
    rw [this] at hle
    omega
  · simp only [Bool.not_eq_true] at hfp
    simp [hfp]

theorem dedup_P_keep (st : Store) (r : Row) (_hr : r ∈ st.items) (fp keep : String)
    (hg : (fp, keep) ∈ dupGroups st) (hfp : r.item.fingerprint = fp) :
    ((dupGroups st).all (fun g => !(r.item.fingerprint == g.1 && !(r.item.id == g.2)))) = true ↔
      r.item.id = keep := by
  constructor
  · intro hall
    have h := (List.all_eq_true.mp hall) (fp, keep) hg
    simp only [Bool.not_eq_eq_eq_not, Bool.not_true, Bool.and_eq_false_iff] at h
    rcases h with h | h
    · exact absurd (by simpa using hfp) (by simpa using h)
    · simpa using h
  · intro hid
    rw [List.all_eq_true]
    intro g' hg'
    obtain ⟨fp', hmem', hcnt', hgeq'⟩ := (dupGroups_mem st g').mp hg'
    obtain ⟨fpk, hmemk, hcntk, hgeqk⟩ := (dupGroups_mem st (fp, keep)).mp hg
    injection hgeqk with h1 h2
    by_cases hff : fp' = fp
    · subst hgeq'
      subst hff
      have hkeep : keep = minId (groupIds st fp') := by rw [h2, ← h1]
      simp [hfp, hid, ← hkeep]
    · subst hgeq'
      have : (r.item.fingerprint == fp') = false := by
        simp [hfp]
        exact fun hc => absurd hc.symm hff
      simp [this]

/-- C7: assuming the primary-key invariant (distinct item ids), after
`deduplicate` runs: the returned count plus the surviving items equals the
original item count (so it returns the number of rows removed); survivors all
come from the original store; every fingerprint that was present is carried by
exactly one remaining item; an item whose fingerprint was unique is untouched;
and every survivor has the minimal (BINARY-collation `MIN(id)`) id among the
original items sharing its fingerprint. -/
theorem C7_deduplicate_sweeper (st : Store)
    (hnd : (st.items.map (fun r => r.item.id)).Nodup) :
    (deduplicate st).1 + (deduplicate st).2.items.length = st.items.length ∧
    (∀ r ∈ (deduplicate st).2.items, r ∈ st.items) ∧
    (∀ fp, 0 < st.items.countP (fun r => r.item.fingerprint == fp) →
      (deduplicate st).2.items.countP (fun r => r.item.fingerprint == fp) = 1) ∧
    (∀ r ∈ st.items,
      st.items.countP (fun r2 => r2.item.fingerprint == r.item.fingerprint) = 1 →
      r ∈ (deduplicate st).2.items) ∧
    (∀ r ∈ (deduplicate st).2.items, ∀ r2 ∈ st.items,
      r2.item.fingerprint = r.item.fingerprint →
      charsLt r2.item.id.data r.item.id.data = false) := by
  have hitems := dedup_items_filter st
  have hcount := dedupFold_count (dupGroups st) 0 st
  refine ⟨?_, ?_, ?_, ?_, ?_⟩
  · have hlen : ((deduplicate st).2.items).length = (st.items.filter _).length :=
      congrArg List.length hitems
    show (deduplicate st).1 + _ = _
    have : (deduplicate st).1 = ((dupGroups st).foldl (fun acc g =>
        let d := sqlDeleteItems acc.2 (fun it => it.fingerprint == g.1 && !(it.id == g.2))
        (acc.1 + d.1, d.2)) (0, st)).1 := rfl
    rw [this]
    have h2 : ((deduplicate st).2.items).length = (((dupGroups st).foldl (fun acc g =>
        let d := sqlDeleteItems acc.2 (fun it => it.fingerprint == g.1 && !(it.id == g.2))
        (acc.1 + d.1, d.2)) (0, st)).2.items).length := rfl
    omega
  · intro r hrin
    rw [hitems] at hrin
    exact (List.mem_filter.mp hrin).1
  · intro fp hpos
    obtain ⟨a, ha, hpa⟩ := List.countP_pos_iff.mp hpos
    have hafp : a.item.fingerprint = fp := by simpa using hpa
    rw [hitems, List.countP_filter]
    by_cases hc : 1 < st.items.countP (fun r => r.item.fingerprint == fp)
    · -- a duplicated group: exactly the minimum-id row survives
      have hgmem : (fp, minId (groupIds st fp)) ∈ dupGroups st :=
        (dupGroups_mem st _).mpr ⟨fp, List.mem_map.mpr ⟨a, ha, hafp⟩, hc, rfl⟩
      have hne : groupIds st fp ≠ [] := by
        unfold groupIds
        intro hc2
        have : a ∈ st.items.filter (fun r => r.item.fingerprint == fp) :=
          List.mem_filter.mpr ⟨ha, hpa⟩
        rw [List.eq_nil_iff_forall_not_mem] at hc2
        exact hc2 a.item.id (List.mem_map.mpr ⟨a, this, rfl⟩)
      have hkmem : minId (groupIds st fp) ∈ groupIds st fp := minId_mem _ hne
      obtain ⟨b, hbf, hbid⟩ := List.mem_map.mp hkmem
      obtain ⟨hbin, hbfp⟩ := List.mem_filter.mp hbf
      apply Nat.le_antisymm
      · calc st.items.countP (fun r => (r.item.fingerprint == fp) &&
              (dupGroups st).all (fun g => !(r.item.fingerprint == g.1 && !(r.item.id == g.2))))
            ≤ st.items.countP (fun r => r.item.id == minId (groupIds st fp)) := by
              apply List.countP_mono_left
              intro r hrin hband
              rw [Bool.and_eq_true] at hband
              obtain ⟨hfpr, hPr⟩ := hband
              have := (dedup_P_keep st r hrin fp _ hgmem (by simpa using hfpr)).mp hPr
              simpa using this
          _ ≤ 1 := nodup_ids_countP_le_one st.items hnd _
      · have hb2 : ((b.item.fingerprint == fp) &&
            (dupGroups st).all (fun g => !(b.item.fingerprint == g.1 && !(b.item.id == g.2)))) = true := by
          rw [Bool.and_eq_true]
          exact ⟨hbfp, (dedup_P_keep st b hbin fp _ hgmem (by simpa using hbfp)).mpr hbid⟩
        have : 0 < st.items.countP (fun r => (r.item.fingerprint == fp) &&
            (dupGroups st).all (fun g => !(r.item.fingerprint == g.1 && !(r.item.id == g.2)))) :=
          List.countP_pos_iff.mpr ⟨b, hbin, hb2⟩
        omega
    · -- a unique fingerprint: its row is untouched
      have hle : st.items.countP (fun r => r.item.fingerprint == fp) ≤ 1 := by omega
      apply Nat.le_antisymm
      · calc st.items.countP (fun r => (r.item.fingerprint == fp) &&
              (dupGroups st).all (fun g => !(r.item.fingerprint == g.1 && !(r.item.id == g.2))))
            ≤ st.items.countP (fun r => r.item.fingerprint == fp) := by
              apply List.countP_mono_left
              intro r _ hband
              rw [Bool.and_eq_true] at hband
              exact hband.1
          _ ≤ 1 := hle
      · have ha2 : ((a.item.fingerprint == fp) &&
            (dupGroups st).all (fun g => !(a.item.fingerprint == g.1 && !(a.item.id == g.2)))) = true := by
          rw [Bool.and_eq_true]
          refine ⟨hpa, dedup_P_of_unique st a ha ?_⟩
          rw [hafp]
          exact hle
        have : 0 < st.items.countP (fun r => (r.item.fingerprint == fp) &&
            (dupGroups st).all (fun g => !(r.item.fingerprint == g.1 && !(r.item.id == g.2)))) :=
          List.countP_pos_iff.mpr ⟨a, ha, ha2⟩
        omega
  · intro r hrin hone
    rw [hitems]
    apply List.mem_filter.mpr
    exact ⟨hrin, dedup_P_of_unique st r hrin (by omega)⟩
  · intro r hrin r2 hr2in hfp2
    rw [hitems] at hrin
    obtain ⟨hrst, hPr⟩ := List.mem_filter.mp hrin
    by_cases hc : 1 < st.items.countP (fun r3 => r3.item.fingerprint == r.item.fingerprint)
    · have hgmem : (r.item.fingerprint, minId (groupIds st r.item.fingerprint)) ∈ dupGroups st :=
        (dupGroups_mem st _).mpr ⟨r.item.fingerprint,
          List.mem_map.mpr ⟨r, hrst, rfl⟩, hc, rfl⟩
      have hid := (dedup_P_keep st r hrst _ _ hgmem rfl).mp hPr
      have hr2g : r2.item.id ∈ groupIds st r.item.fingerprint := by
        unfold groupIds
        exact List.mem_map.mpr ⟨r2, List.mem_filter.mpr ⟨hr2in, by simp [hfp2]⟩, rfl⟩
      have := minId_min _ _ hr2g
      rw [← hid] at this
      exact this
    · by_cases heq : r2 = r
      · subst heq
        exact charsLt_irrefl _
      · exfalso
        have h2 := two_mem_countP st.items r r2
          (fun r3 => r3.item.fingerprint == r.item.fingerprint) hrst hr2in
          (fun hc2 => heq hc2.symm) (by simp) (by simp [hfp2])
        omega

/-- C7 witness: the sweeper applied to the concrete store with one duplicated
group and one singleton group. -/
theorem C7_witness :
    (deduplicate stDup).1 + (deduplicate stDup).2.items.length = stDup.items.length ∧
    (∀ r ∈ (deduplicate stDup).2.items, r ∈ stDup.items) ∧
    (∀ fp, 0 < stDup.items.countP (fun r => r.item.fingerprint == fp) →
      (deduplicate stDup).2.items.countP (fun r => r.item.fingerprint == fp) = 1) ∧
    (∀ r ∈ stDup.items,
      stDup.items.countP (fun r2 => r2.item.fingerprint == r.item.fingerprint) = 1 →
      r ∈ (deduplicate stDup).2.items) ∧
    (∀ r ∈ (deduplicate stDup).2.items, ∀ r2 ∈ stDup.items,
      r2.item.fingerprint = r.item.fingerprint →
      charsLt r2.item.id.data r.item.id.data = false) :=
  C7_deduplicate_sweeper stDup (by decide)

theorem mem_insertPubDesc (x y : Row) (l : List Row) :
    y ∈ insertPubDesc x l ↔ y = x ∨ y ∈ l := by
  induction l with
  | nil => simp [insertPubDesc]
  | cons z zs ih =>
    rw [insertPubDesc]
    by_cases h : pubGe z x = true
    · rw [if_pos h]
      simp [ih]
      tauto
    · rw [if_neg h]
      simp

theorem mem_sortPubDesc (y : Row) (l : List Row) : y ∈ sortPubDesc l ↔ y ∈ l := by
  induction l with
  | nil => simp [sortPubDesc]
  | cons z zs ih =>
    rw [sortPubDesc, mem_insertPubDesc]
    simp [ih]

theorem length_insertPubDesc (x : Row) (l : List Row) :
    (insertPubDesc x l).length = l.length + 1 := by
  induction l with
  | nil => rfl
  | cons z zs ih =>
    rw [insertPubDesc]
    by_cases h : pubGe z x = true
    · rw [if_pos h]
      simp [ih]
    · rw [if_neg h]
      simp

theorem length_sortPubDesc (l : List Row) : (sortPubDesc l).length = l.length := by
  induction l with
  | nil => rfl
  | cons z zs ih =>
    rw [sortPubDesc, length_insertPubDesc, ih]
    rfl

/-- C8: the FTS index is maintained in the same unit of work as item
mutations: immediately after an insert, a single-term search for a term
tokenized from the item's title, summary or author returns that item (whenever
the result is not cut off by the LIMIT); immediately after deleting an item no
search returns any item with its id; and on a store whose index mirrors its
items, a search for a term present in no stored content returns the empty
list. -/
theorem C8_fts_sync (st : Store) (q : String) (lim : Nat) :
    (∀ it : FeedItem,
      contentMatch q it.title it.summary it.author = true →
      st.items.length < lim →
      it ∈ search (sqlInsertItem st it) q lim) ∧
    (∀ item_id : String, ∀ r ∈ search (sqlDeleteItems st (fun it => it.id == item_id)).2 q lim,
      r.id ≠ item_id) ∧
    ((∀ e ∈ st.fts, ∀ r ∈ st.items, r.rowid = e.rowid →
        e.title = r.item.title ∧ e.summary = r.item.summary ∧ e.author = r.item.author) →
     (∀ r ∈ st.items, contentMatch q r.item.title r.item.summary r.item.author = false) →
     search st q lim = []) := by
  refine ⟨?_, ?_, ?_⟩
  · intro it hq hlim
    show it ∈ (((sortPubDesc ((sqlInsertItem st it).items.filter (fun r =>
        (sqlInsertItem st it).fts.any (fun e =>
          e.rowid == r.rowid && contentMatch q e.title e.summary e.author)))).take lim).map
        (fun r => r.item))
    have hmem : (⟨st.nextRowid, it⟩ : Row) ∈ (sqlInsertItem st it).items.filter (fun r =>
        (sqlInsertItem st it).fts.any (fun e =>
          e.rowid == r.rowid && contentMatch q e.title e.summary e.author)) := by
      apply List.mem_filter.mpr
      constructor
      · simp [sqlInsertItem]
      · simp [sqlInsertItem, List.any_append, hq]
    have hlen : ((sortPubDesc ((sqlInsertItem st it).items.filter (fun r =>
        (sqlInsertItem st it).fts.any (fun e =>
          e.rowid == r.rowid && contentMatch q e.title e.summary e.author)))).length) ≤ lim := by
      rw [length_sortPubDesc]
      calc ((sqlInsertItem st it).items.filter _).length
          ≤ (sqlInsertItem st it).items.length := List.length_filter_le _ _
        _ = st.items.length + 1 := by simp [sqlInsertItem]
        _ ≤ lim := hlim
    rw [List.take_of_length_le hlen]
    exact List.mem_map.mpr ⟨⟨st.nextRowid, it⟩, (mem_sortPubDesc _ _).mpr hmem, rfl⟩
  · intro item_id r hr
    obtain ⟨x, hx, hxr⟩ := List.mem_map.mp hr
    have hx2 : x ∈ sortPubDesc ((sqlDeleteItems st (fun it => it.id == item_id)).2.items.filter _) :=
      List.mem_of_mem_take hx
    have hx3 := (mem_sortPubDesc _ _).mp hx2
    have hx4 := (List.mem_filter.mp hx3).1
    have hx5 : x ∈ st.items.filter (fun rr => !(rr.item.id == item_id)) := hx4
    have hx6 := (List.mem_filter.mp hx5).2
    intro hc
    rw [← hxr] at hc
    rw [hc] at hx6
    simp at hx6
  · intro hmirror hnone
    have hnil : st.items.filter (fun r =>
        st.fts.any (fun e => e.rowid == r.rowid && contentMatch q e.title e.summary e.author)) = [] := by
      rw [List.filter_eq_nil_iff]
      intro r hrin
      intro hany
      obtain ⟨e, he, hband⟩ := List.any_eq_true.mp hany
      rw [Bool.and_eq_true] at hband
      obtain ⟨hrow, hmatch⟩ := hband
      have hrow2 : r.rowid = e.rowid := by
        have : e.rowid = r.rowid := by simpa using hrow
        exact this.symm
      obtain ⟨ht, hs, ha⟩ := hmirror e he r hrin hrow2
      rw [ht, hs, ha] at hmatch
      rw [hnone r hrin] at hmatch
      exact absurd hmatch (by simp)
    show (((sortPubDesc (st.items.filter _)).take lim).map (fun r => r.item)) = []
    rw [hnil]
    show ((([] : List Row).take lim).map (fun r => r.item)) = []
    simp

/-- C8 witness: inserting the fixture item into an empty store makes the
search for a word of its title find it. -/
theorem C8_witness :
    mkItem "i1" "F1" "fp1" ∈
      search (sqlInsertItem { feeds := [], items := [], fts := [], nextRowid := 1 }
        (mkItem "i1" "F1" "fp1")) "hello" 20 :=
  (C8_fts_sync { feeds := [], items := [], fts := [], nextRowid := 1 } "hello" 20).1
    (mkItem "i1" "F1" "fp1") (by decide) (by decide)

theorem flagUpdate_length (st : Store) (item_id : String) (g : FeedItem → FeedItem) :
    (st.items.map (fun r2 =>
      if r2.item.id == item_id then ⟨r2.rowid, g r2.item⟩ else r2)).length = st.items.length :=
  List.length_map _ _

theorem flagUpdate_getElem (st : Store) (item_id : String) (g : FeedItem → FeedItem)
    (k : Nat) (r : Row) (hk : st.items[k]? = some r) :
    (st.items.map (fun r2 =>
        if r2.item.id == item_id then ⟨r2.rowid, g r2.item⟩ else r2))[k]? =
      some (if r.item.id = item_id then ⟨r.rowid, g r.item⟩ else r) := by
  rw [List.getElem?_map, hk]
  simp only [Option.map_some']
  by_cases h : r.item.id = item_id
  · simp [h]
  · rw [if_neg (show ¬((r.item.id == item_id) = true) by simp [h]), if_neg h]

theorem flagUpdate_absent (l : List Row) (item_id : String) (g : FeedItem → FeedItem)
    (h : ∀ r ∈ l, r.item.id ≠ item_id) :
    l.map (fun r2 =>
      if r2.item.id == item_id then ⟨r2.rowid, g r2.item⟩ else r2) = l := by
  induction l with
  | nil => rfl
  | cons a l ih =>
    rw [List.map_cons,
      if_neg (show ¬((a.item.id == item_id) = true) by simp [h a (List.mem_cons_self a l)]),
      ih (fun r hr => h r (List.mem_cons_of_mem a hr))]

/-- C10: each of `mark_read`, `mark_unread`, `bookmark`, `unbookmark` returns
exactly "an item with this id exists", leaves feeds, the FTS index and the
item count unchanged, rewrites only the rows whose item id matches — and there
only the named flag, every other field kept — and is a complete no-op
(returning false) when the id is absent. -/
theorem C10_flag_ops (st : Store) (item_id : String) :
    ((mark_read st item_id).1 = st.items.any (fun r => r.item.id == item_id) ∧
     (mark_read st item_id).2.feeds = st.feeds ∧
     (mark_read st item_id).2.fts = st.fts ∧
     (mark_read st item_id).2.items.length = st.items.length ∧
     (∀ (k : Nat) (r : Row), st.items[k]? = some r →
       (mark_read st item_id).2.items[k]? =
         some (if r.item.id = item_id then ⟨r.rowid, { r.item with is_read := true }⟩ else r)) ∧
     ((∀ r ∈ st.items, r.item.id ≠ item_id) →
       (mark_read st item_id).1 = false ∧ (mark_read st item_id).2 = st)) ∧
    ((mark_unread st item_id).1 = st.items.any (fun r => r.item.id == item_id) ∧
     (mark_unread st item_id).2.feeds = st.feeds ∧
     (mark_unread st item_id).2.fts = st.fts ∧
     (mark_unread st item_id).2.items.length = st.items.length ∧
     (∀ (k : Nat) (r : Row), st.items[k]? = some r →
       (mark_unread st item_id).2.items[k]? =
         some (if r.item.id = item_id then ⟨r.rowid, { r.item with is_read := false }⟩ else r)) ∧
     ((∀ r ∈ st.items, r.item.id ≠ item_id) →
       (mark_unread st item_id).1 = false ∧ (mark_unread st item_id).2 = st)) ∧
    ((bookmark st item_id).1 = st.items.any (fun r => r.item.id == item_id) ∧
     (bookmark st item_id).2.feeds = st.feeds ∧
     (bookmark st item_id).2.fts = st.fts ∧
     (bookmark st item_id).2.items.length = st.items.length ∧
     (∀ (k : Nat) (r : Row), st.items[k]? = some r →
       (bookmark st item_id).2.items[k]? =
         some (if r.item.id = item_id then ⟨r.rowid, { r.item with is_bookmarked := true }⟩ else r)) ∧
     ((∀ r ∈ st.items, r.item.id ≠ item_id) →
       (bookmark st item_id).1 = false ∧ (bookmark st item_id).2 = st)) ∧
    ((unbookmark st item_id).1 = st.items.any (fun r => r.item.id == item_id) ∧
     (unbookmark st item_id).2.feeds = st.feeds ∧
     (unbookmark st item_id).2.fts = st.fts ∧
     (unbookmark st item_id).2.items.length = st.items.length ∧
     (∀ (k : Nat) (r : Row), st.items[k]? = some r →
       (unbookmark st item_id).2.items[k]? =
         some (if r.item.id = item_id then ⟨r.rowid, { r.item with is_bookmarked := false }⟩ else r)) ∧
     ((∀ r ∈ st.items, r.item.id ≠ item_id) →
       (unbookmark st item_id).1 = false ∧ (unbookmark st item_id).2 = st)) := by
  have habs : ∀ g : FeedItem → FeedItem, (∀ r ∈ st.items, r.item.id ≠ item_id) →
      ({ st with items := st.items.map (fun r2 =>
        if r2.item.id == item_id then ⟨r2.rowid, g r2.item⟩ else r2) } : Store) = st := by
    intro g h
    rw [flagUpdate_absent st.items item_id g h]
  have hany : ∀ h : (∀ r ∈ st.items, r.item.id ≠ item_id),
      st.items.any (fun r => r.item.id == item_id) = false :=
    fun h => List.any_eq_false.mpr (fun r hr => by simp [h r hr])
  refine ⟨⟨rfl, rfl, rfl, ?_, ?_, ?_⟩, ⟨rfl, rfl, rfl, ?_, ?_, ?_⟩,
    ⟨rfl, rfl, rfl, ?_, ?_, ?_⟩, ⟨rfl, rfl, rfl, ?_, ?_, ?_⟩⟩
  · exact flagUpdate_length st item_id (fun it => { it with is_read := true })
  · exact fun k r hk => flagUpdate_getElem st item_id (fun it => { it with is_read := true }) k r hk
  · exact fun h => ⟨hany h, habs (fun it => { it with is_read := true }) h⟩
  · exact flagUpdate_length st item_id (fun it => { it with is_read := false })
  · exact fun k r hk => flagUpdate_getElem st item_id (fun it => { it with is_read := false }) k r hk
  · exact fun h => ⟨hany h, habs (fun it => { it with is_read := false }) h⟩
  · exact flagUpdate_length st item_id (fun it => { it with is_bookmarked := true })
  · exact fun k r hk => flagUpdate_getElem st item_id (fun it => { it with is_bookmarked := true }) k r hk
  · exact fun h => ⟨hany h, habs (fun it => { it with is_bookmarked := true }) h⟩
  · exact flagUpdate_length st item_id (fun it => { it with is_bookmarked := false })
  · exact fun k r hk => flagUpdate_getElem st item_id (fun it => { it with is_bookmarked := false }) k r hk
  · exact fun h => ⟨hany h, habs (fun it => { it with is_bookmarked := false }) h⟩

/-- C10 witness: marking the fixture item read sets only its read flag. -/
theorem C10_witness :
    (mark_read stOne "i1").2.items[0]? =
      some (if (mkItem "i1" "F1" "fp1").id = "i1"
        then (⟨1, { mkItem "i1" "F1" "fp1" with is_read := true }⟩ : Row)
        else ⟨1, mkItem "i1" "F1" "fp1"⟩) :=
  (C10_flag_ops stOne "i1").1.2.2.2.2.1 0 ⟨1, mkItem "i1" "F1" "fp1"⟩ (by rfl)

/-- C4: `_fingerprint` is the first 16 hex characters of the SHA-256 of the
UTF-8 bytes of the lower-cased, stripped title concatenated (no separator)
with the lower-cased, stripped url; its result always has length 16, it is
invariant under upper-casing of either argument, and it depends on its
arguments only through their normalized forms (so only a hash collision can
identify distinct normalized inputs). -/
theorem C4_fingerprint_normalized (t u : String) :
    fingerprint t u = String.mk ((sha256hex (utf8 (normText t ++ normText u))).take 16) ∧
    (fingerprint t u).length = 16 ∧
    fingerprint (pyUpper t) (pyUpper u) = fingerprint t u ∧
    (∀ t' u', normText t' = normText t → normText u' = normText u →
      fingerprint t' u' = fingerprint t u) :=
  ⟨rfl, fingerprint_length t u,
    fingerprint_congr t u (pyUpper t) (pyUpper u) (normText_pyUpper t) (normText_pyUpper u),
    fun t' u' ht hu => fingerprint_congr t u t' u' ht hu⟩

/-- C4 witness: case and surrounding-whitespace changes do not change the
fingerprint. -/
theorem C4_witness :
    fingerprint " AI News" "HTTPS://Example.COM/x " = fingerprint "ai news" "https://example.com/x" :=
  (C4_fingerprint_normalized "ai news" "https://example.com/x").2.2.2
    " AI News" "HTTPS://Example.COM/x " (by decide) (by decide)
